import Mathlib

/-!
# Verification of the hierarchical data-resolution engine

A shallow embedding of the resolver (`src/resolver.py`) and the source
standardizer (`src/transformers/standardizer.py`) of the repository.

Python's dynamic values are modelled by the inductive `Value`; Python
dictionaries are ordered association lists (insertion order, duplicate-free
keys maintained by the insertion operation), matching CPython's dict
semantics. Floats are modelled in decimal form (`mant * 10 ^ exp`), which is
sufficient for the `split` transform's cast behaviour considered here.

Modelling notes, applying throughout:
* `logging.*` calls only emit diagnostics and never change a computed value;
  they are dropped, and the `silent` parameter of `_get_value` (which only
  gates logging) is dropped with them.
* Calling `.get` on a non-dict receiver raises `AttributeError` in Python.
  The model's `pyGet` returns `Value.null` on such receivers; every claim
  below exercises dict receivers only.
* Python `==` identifies numbers across types (`1 == 1.0`, `True == 1`) and
  compares dicts without regard to order; the model's equality is
  structural. No claim compares values across numeric types or compares
  reordered dicts.
-/

/-- A dynamic (Python-style) value: `None`, `str`, `int`, `float`
(decimal form `mant * 10 ^ exp`), `bool`, `list`, or `dict`
(ordered association list keyed by values). -/
inductive Value where
  | null : Value
  | s : String → Value
  | i : Int → Value
  | f : Int → Int → Value
  | b : Bool → Value
  | list : List Value → Value
  | dict : List (Value × Value) → Value

mutual

/-- Structural (Python `==`) equality test on values. -/
def Value.beq : Value → Value → Bool
  | .null, .null => true
  | .s a, .s c => a == c
  | .i a, .i c => a == c
  | .f a e, .f c g => a == c && e == g
  | .b a, .b c => a == c
  | .list xs, .list ys => Value.beqList xs ys
  | .dict es, .dict fs => Value.beqEntries es fs
  | _, _ => false

/-- Elementwise equality of value lists. -/
def Value.beqList : List Value → List Value → Bool
  | [], [] => true
  | x :: xs, y :: ys => Value.beq x y && Value.beqList xs ys
  | _, _ => false

/-- Elementwise equality of dict entry lists. -/
def Value.beqEntries : List (Value × Value) → List (Value × Value) → Bool
  | [], [] => true
  | (k, v) :: es, (k2, v2) :: fs =>
      Value.beq k k2 && Value.beq v v2 && Value.beqEntries es fs
  | _, _ => false

end

mutual

/-- Induction principle for `Value` providing hypotheses for nested
lists and dict entries. -/
theorem Value.inductOn {motive : Value → Prop}
    (hnull : motive .null)
    (hs : ∀ v, motive (.s v))
    (hi : ∀ v, motive (.i v))
    (hf : ∀ m e, motive (.f m e))
    (hb : ∀ v, motive (.b v))
    (hlist : ∀ l, (∀ x ∈ l, motive x) → motive (.list l))
    (hdict : ∀ es, (∀ p ∈ es, motive p.1 ∧ motive p.2) → motive (.dict es)) :
    ∀ v, motive v
  | .null => hnull
  | .s v => hs v
  | .i v => hi v
  | .f m e => hf m e
  | .b v => hb v
  | .list l => hlist l (Value.inductOnList hnull hs hi hf hb hlist hdict l)
  | .dict es => hdict es (Value.inductOnEntries hnull hs hi hf hb hlist hdict es)

theorem Value.inductOnList {motive : Value → Prop}
    (hnull : motive .null)
    (hs : ∀ v, motive (.s v))
    (hi : ∀ v, motive (.i v))
    (hf : ∀ m e, motive (.f m e))
    (hb : ∀ v, motive (.b v))
    (hlist : ∀ l, (∀ x ∈ l, motive x) → motive (.list l))
    (hdict : ∀ es, (∀ p ∈ es, motive p.1 ∧ motive p.2) → motive (.dict es)) :
    ∀ l : List Value, ∀ x ∈ l, motive x
  | [] => by intro x hx; cases hx
  | v :: vs => by
      intro x hx
      rcases List.mem_cons.mp hx with h | h
      · exact h ▸ Value.inductOn hnull hs hi hf hb hlist hdict v
      · exact Value.inductOnList hnull hs hi hf hb hlist hdict vs x h

theorem Value.inductOnEntries {motive : Value → Prop}
    (hnull : motive .null)
    (hs : ∀ v, motive (.s v))
    (hi : ∀ v, motive (.i v))
    (hf : ∀ m e, motive (.f m e))
    (hb : ∀ v, motive (.b v))
    (hlist : ∀ l, (∀ x ∈ l, motive x) → motive (.list l))
    (hdict : ∀ es, (∀ p ∈ es, motive p.1 ∧ motive p.2) → motive (.dict es)) :
    ∀ es : List (Value × Value), ∀ p ∈ es, motive p.1 ∧ motive p.2
  | (k, v) :: es => by
      intro p hp
      rcases List.mem_cons.mp hp with h | h
      · subst h
        exact ⟨Value.inductOn hnull hs hi hf hb hlist hdict k,
               Value.inductOn hnull hs hi hf hb hlist hdict v⟩
      · exact Value.inductOnEntries hnull hs hi hf hb hlist hdict es p h
  | [] => by intro p hp; cases hp

end

theorem Value.beqList_iff_of (xs : List Value)
    (ih : ∀ x ∈ xs, ∀ c, Value.beq x c = true ↔ x = c) :
    ∀ ys, Value.beqList xs ys = true ↔ xs = ys := by
  induction xs with
  | nil => intro ys; cases ys <;> simp [Value.beqList]
  | cons x xs tail_ih =>
      intro ys
      cases ys with
      | nil => simp [Value.beqList]
      | cons y ys =>
          simp only [Value.beqList, Bool.and_eq_true, List.cons.injEq]
          rw [ih x (by simp), tail_ih (fun z hz => ih z (by simp [hz])) ys]

theorem Value.beqEntries_iff_of (es : List (Value × Value))
    (ih : ∀ p ∈ es, ∀ c, (Value.beq p.1 c = true ↔ p.1 = c) ∧
        (Value.beq p.2 c = true ↔ p.2 = c)) :
    ∀ fs, Value.beqEntries es fs = true ↔ es = fs := by
  induction es with
  | nil => intro fs; cases fs <;> simp [Value.beqEntries]
  | cons p es tail_ih =>
      intro fs
      obtain ⟨k, v⟩ := p
      cases fs with
      | nil => simp [Value.beqEntries]
      | cons q fs =>
          obtain ⟨k2, v2⟩ := q
          simp only [Value.beqEntries, Bool.and_eq_true, List.cons.injEq,
            Prod.mk.injEq]
          rw [(ih (k, v) (by simp) k2).1, (ih (k, v) (by simp) v2).2,
            tail_ih (fun z hz => ih z (by simp [hz])) fs]
          try tauto

/-- `Value.beq` decides propositional equality. -/
theorem Value.beq_iff : ∀ a c : Value, Value.beq a c = true ↔ a = c := by
  intro a
  induction a using Value.inductOn with
  | hnull => intro c; cases c <;> simp [Value.beq]
  | hs v => intro c; cases c <;> simp [Value.beq]
  | hi v => intro c; cases c <;> simp [Value.beq]
  | hf m e => intro c; cases c <;> simp [Value.beq]
  | hb v => intro c; cases c <;> simp [Value.beq]
  | hlist l ih =>
      intro c; cases c <;> simp [Value.beq]
      exact Value.beqList_iff_of l ih _
  | hdict es ih =>
      intro c; cases c <;> simp [Value.beq]
      exact Value.beqEntries_iff_of es (fun p hp c =>
        ⟨(ih p hp).1 c, (ih p hp).2 c⟩) _

instance : BEq Value := ⟨Value.beq⟩

instance : LawfulBEq Value where
  eq_of_beq h := (Value.beq_iff _ _).mp h
  rfl := by intro a; exact (Value.beq_iff a a).mpr rfl

instance Value.decEq : DecidableEq Value :=
  fun a c => decidable_of_iff (Value.beq a c = true) (Value.beq_iff a c)

/-- Python truthiness: `None`, `""`, `0`, `0.0`, `False`, `[]`, `{}` are falsy. -/
def Value.truthy : Value → Bool
  | .null => false
  | .s v => v ≠ ""
  | .i v => v ≠ 0
  | .f m _ => m ≠ 0
  | .b v => v
  | .list l => !l.isEmpty
  | .dict e => !e.isEmpty

/-- `isinstance(v, dict)`. -/
def Value.isDict : Value → Bool
  | .dict _ => true
  | _ => false

/-- `isinstance(v, list)`. -/
def Value.isList : Value → Bool
  | .list _ => true
  | _ => false

/-- Python `d.get(k)`: the value stored at `k`, or `None` when absent.
(A non-dict receiver raises `AttributeError` in Python; the model yields
`null` there, see the header.) -/
def pyGet (v k : Value) : Value :=
  match v with
  | .dict entries => ((entries.find? (fun p => p.1 == k)).map Prod.snd).getD .null
  | _ => .null

/-- Python `d.get(k, dflt)`. -/
def pyGetD (v k dflt : Value) : Value :=
  match v with
  | .dict entries => ((entries.find? (fun p => p.1 == k)).map Prod.snd).getD dflt
  | _ => dflt

/-- Python `k in v` for dicts (key membership) and lists (element
membership). (Non-iterables raise `TypeError` in Python; the model yields
`false`; no claim exercises membership in strings.) -/
def pyContains (v k : Value) : Bool :=
  match v with
  | .dict entries => entries.any (fun p => p.1 == k)
  | .list l => l.any (fun x => x == k)
  | _ => false

/-- Python iteration `for item in v`: list elements, string characters,
dict keys. (Non-iterables raise `TypeError` in Python; the model yields
the empty iteration.) -/
def pyIter : Value → List Value
  | .list l => l
  | .s str => str.toList.map (fun c => .s (String.mk [c]))
  | .dict entries => entries.map Prod.fst
  | _ => []

/-- The standardized table set `all_data`: source name → table value. -/
abbrev AllData := List (String × Value)

/-- `all_data.get(name)` (no default). -/
def allDataGet? (d : AllData) (name : String) : Option Value :=
  (d.find? (fun p => p.1 == name)).map Prod.snd

/-- `all_data.get(name, dflt)`. -/
def allDataGetD (d : AllData) (name : String) (dflt : Value) : Value :=
  (allDataGet? d name).getD dflt

example : pyGet (.dict [(.s "a", .i 1), (.s "b", .i 2)]) (.s "b") = .i 2 := by decide
example : pyGet (.dict [(.s "a", .i 1)]) (.s "z") = .null := by decide
example : pyContains (.dict [(.i 3, .null)]) (.i 3) = true := by decide

/-- The `transform` sub-dict of a rule (`_apply_transform` reads keys
`type`, `in_source`, `delimiter`, `as_type`; each may be absent). -/
structure Transform where
  ttype : Option String
  in_source : Option String
  delimiter : Option String
  as_type : Option String

/-- A resolution rule: the Python dict probed by key in `resolver.py`.
One optional component per probed key; `condition` is the triple
(`source`, `key`, truthiness of `exists`), `from_parent` is the truthiness
of `rule.get('from_parent', False)`. -/
inductive Rule where
  | mk (link_key : Option Rule)
       (from_src : Option String)
       (field : Option String)
       (from_context : Option String)
       (from_parent : Bool)
       (transform : Option Transform)
       (condition : Option (String × Rule × Bool))
       (coalesce : Option (List Rule))
       (type_tag : Option String)
       (fields : Option (List (String × Rule)))
       (sub_object : Option (List (String × Rule)))

def Rule.link_key : Rule → Option Rule
  | .mk x _ _ _ _ _ _ _ _ _ _ => x

def Rule.from_src : Rule → Option String
  | .mk _ x _ _ _ _ _ _ _ _ _ => x

def Rule.field : Rule → Option String
  | .mk _ _ x _ _ _ _ _ _ _ _ => x

def Rule.from_context : Rule → Option String
  | .mk _ _ _ x _ _ _ _ _ _ _ => x

def Rule.from_parent : Rule → Bool
  | .mk _ _ _ _ x _ _ _ _ _ _ => x

def Rule.transform : Rule → Option Transform
  | .mk _ _ _ _ _ x _ _ _ _ _ => x

def Rule.condition : Rule → Option (String × Rule × Bool)
  | .mk _ _ _ _ _ _ x _ _ _ _ => x

def Rule.coalesce : Rule → Option (List Rule)
  | .mk _ _ _ _ _ _ _ x _ _ _ => x

def Rule.type_tag : Rule → Option String
  | .mk _ _ _ _ _ _ _ _ x _ _ => x

def Rule.fields : Rule → Option (List (String × Rule))
  | .mk _ _ _ _ _ _ _ _ _ x _ => x

def Rule.sub_object : Rule → Option (List (String × Rule))
  | .mk _ _ _ _ _ _ _ _ _ _ x => x

/-- The final three branches of `_get_value` (`from_parent`, then `from`,
then the fall-through warning): shared tail of the dispatch chain. -/
def getValueSimple (ctx : Value) (fp : Bool) (ofrom ofield : Option String) : Value :=
  if fp then
    match ofield with
    | none => ctx
    | some fieldName => pyGet ctx (.s fieldName)
  else
    match ofrom with
    | some sourceName =>
        let sourceObject := pyGet ctx (.s sourceName)
        match ofield with
        | some fieldName =>
            if sourceObject.truthy then pyGet sourceObject (.s fieldName)
            else .null
        | none => .null
    | none => .null

/-- `_get_value(context, rule, all_data)` of `src/src/resolver.py`.
Dispatch: `'link_key' in rule`, then truthy `from_context`, then truthy
`from_parent`, then `'from' in rule`, else warn-and-`None`. The linked
branch reads `rule['from']` unconditionally (a linked rule without `from`
raises `KeyError` in Python; the model yields `null`, no claim exercises
it). -/
def getValue (ctx : Value) (rule : Rule) (allData : AllData) : Value :=
  match rule with
  | .mk (some lk) ofrom ofield _ _ _ _ _ _ _ _ =>
      match ofrom with
      | none => .null
      | some sourceName =>
        match allDataGet? allData sourceName with
        | none => .null
        | some targetSource =>
          let lookupKey := getValue ctx lk allData
          if lookupKey = .null then .null
          else
            let linkedItem := pyGet targetSource lookupKey
            if linkedItem = .null then .null
            else
              match ofield with
              | some fieldName =>
                  if linkedItem.isDict then pyGet linkedItem (.s fieldName)
                  else .null
              | none => linkedItem
  | .mk none ofrom ofield (some fc) fp _ _ _ _ _ _ =>
      if fc ≠ "" then pyGet ctx (.s fc)
      else getValueSimple ctx fp ofrom ofield
  | .mk none ofrom ofield none fp _ _ _ _ _ _ =>
      getValueSimple ctx fp ofrom ofield

/-- No two consecutive underscores. -/
def noDoubleUnderscore : List Char → Bool
  | '_' :: '_' :: _ => false
  | _ :: rest => noDoubleUnderscore rest
  | [] => true

/-- Decimal value of a digit list. -/
def digitsVal (cs : List Char) : Nat :=
  cs.foldl (fun n c => n * 10 + (c.toNat - 48)) 0

/-- The unsigned part of a Python decimal `int()` literal: a nonempty run
of digits, optionally grouped by single underscores placed between
digits. -/
def pyIntCore (cs : List Char) : Option Nat :=
  if h : cs = [] then none
  else
    if (cs.head h).isDigit && (cs.getLast h).isDigit &&
        cs.all (fun c => c.isDigit || c = '_') && noDoubleUnderscore cs then
      some (digitsVal (cs.filter Char.isDigit))
    else none

/-- Python `int(s)` on an already-stripped string: optional sign then a
decimal digit run (with optional single underscore grouping). Non-decimal
forms accepted by CPython (non-ASCII digits) are outside the model. -/
def pyParseInt (str : String) : Option Int :=
  match str.toList with
  | '+' :: rest => (pyIntCore rest).map (fun n => (n : Int))
  | '-' :: rest => (pyIntCore rest).map (fun n => -(n : Int))
  | cs => (pyIntCore cs).map (fun n => (n : Int))

/-- Longest digit run at the head of a char list, with the remainder. -/
def takeDigits : List Char → List Char × List Char
  | c :: rest =>
      if c.isDigit then
        let p := takeDigits rest
        (c :: p.1, p.2)
      else ([], c :: rest)
  | [] => ([], [])

/-- Optional exponent tail of a float literal; `mantDigits` are the
mantissa digits and `fracLen` the number of fraction digits already
consumed. -/
def pyFloatExp (mantDigits : List Char) (fracLen : Nat) : List Char → Option Value
  | [] => some (.f (digitsVal mantDigits) (-(fracLen : Int)))
  | e :: rest =>
      if e = 'e' || e = 'E' then
        let mk : List Char → Bool → Option Value := fun ds neg =>
          if ds ≠ [] && ds.all Char.isDigit then
            let ex : Int := if neg then -(digitsVal ds : Int) else (digitsVal ds : Int)
            some (.f (digitsVal mantDigits) (ex - (fracLen : Int)))
          else none
        match rest with
        | '+' :: ds => mk ds false
        | '-' :: ds => mk ds true
        | ds => mk ds false
      else none

/-- The unsigned part of a Python `float()` literal:
`digits [. digits] [exp]` or `. digits [exp]`. -/
def pyFloatCore (cs : List Char) : Option Value :=
  let p1 := takeDigits cs
  match p1.2 with
  | '.' :: r2 =>
      let p2 := takeDigits r2
      if p1.1 = [] && p2.1 = [] then none
      else pyFloatExp (p1.1 ++ p2.1) p2.1.length p2.2
  | _ => if p1.1 = [] then none else pyFloatExp p1.1 0 p1.2

/-- Python `float(s)` on an already-stripped string, in decimal form.
Underscore grouping, `inf`/`infinity`/`nan` and non-ASCII digits are
outside the model. -/
def pyParseFloat (str : String) : Option Value :=
  match str.toList with
  | '+' :: rest => pyFloatCore rest
  | '-' :: rest => (pyFloatCore rest).map (fun v =>
      match v with
      | .f m e => .f (-m) e
      | v => v)
  | cs => pyFloatCore cs

/-- Python `str.split(sep)` on char lists for a nonempty separator:
leftmost, non-overlapping separator matches; empty pieces are kept. The
`fuel` argument only bounds the recursion and is instantiated with the
length of the string, which the scan never exhausts, as each step
consumes at least one character. (With an empty separator — a case Python
rejects with `ValueError`, modelled in `applyTransformE` — the result is
meaningless but the function still terminates.) -/
def pySplitAux (sep : List Char) : Nat → List Char → List Char → List (List Char)
  | _, [], cur => [cur.reverse]
  | 0, cs, cur => [cur.reverse ++ cs]
  | fuel + 1, c :: rest, cur =>
      if sep.isPrefixOf (c :: rest) then
        cur.reverse :: pySplitAux sep fuel ((c :: rest).drop sep.length) []
      else pySplitAux sep fuel rest (c :: cur)

/-- Python `str.split(sep)` for a nonempty separator. -/
def pySplit (str sep : String) : List String :=
  (pySplitAux sep.toList str.toList.length str.toList []).map (fun cs => String.mk cs)

/-- Python `str.strip()`: drop leading and trailing whitespace (the
ASCII whitespace classes; exotic unicode whitespace stripped by Python is
outside the model). -/
def pyStrip (s : String) : String :=
  String.mk (((s.toList.dropWhile Char.isWhitespace).reverse.dropWhile
    Char.isWhitespace).reverse)

/-- `value.split(delimiter)`, each piece stripped, empty pieces dropped:
the common comprehension body of the `split` transform
(`[... for v in split_values if v.strip()]`). Requires a nonempty
delimiter (an empty one raises `ValueError` in Python, modelled in
`applyTransformE`). -/
def splitPieces (str delim : String) : List String :=
  ((pySplit str delim).map pyStrip).filter (fun p => p ≠ "")

/-- The `try`/`except ValueError` cast of the `split` transform: cast all
pieces to the target type, falling back to the full trimmed-string list as
soon as any single cast fails. -/
def castPieces (pieces : List String) (asType : String) : Value :=
  if asType = "int" then
    if pieces.all (fun p => (pyParseInt p).isSome) then
      .list (pieces.map (fun p => .i ((pyParseInt p).getD 0)))
    else .list (pieces.map .s)
  else if asType = "float" then
    if pieces.all (fun p => (pyParseFloat p).isSome) then
      .list (pieces.map (fun p => (pyParseFloat p).getD .null))
    else .list (pieces.map .s)
  else .list (pieces.map .s)

/-- `_apply_transform(value, rule, all_data)` of `src/src/resolver.py`:
no-op without a transform or on `None`; `lookup` maps the value through a
named table (`None`-defaulting); `split` splits a string value, strips and
drops empty pieces, and casts per `as_type` with all-or-nothing fallback.
This is the total model of the non-raising fragment; the `ValueError`
raised by `str.split` on an empty delimiter is modelled by
`applyTransformE`. -/
def applyTransform (value : Value) (rule : Rule) (allData : AllData) : Value :=
  match rule.transform with
  | none => value
  | some tr =>
    if value = .null then value
    else if tr.ttype = some "lookup" then
      match tr.in_source with
      | some sourceName =>
          if sourceName ≠ "" then
            pyGet (allDataGetD allData sourceName (.dict [])) value
          else value
      | none => value
    else if tr.ttype = some "split" then
      match value with
      | .s str => castPieces (splitPieces str (tr.delimiter.getD ",")) (tr.as_type.getD "string")
      | _ => value
    else value

/-- `_apply_transform` with Python's raising behaviour made explicit:
identical to `applyTransform` except that a `split` transform applied to a
string with an empty configured delimiter is the uncaught
`ValueError: empty separator` that `str.split('')` raises (the
surrounding `try` only guards the casts). -/
def applyTransformE (value : Value) (rule : Rule) (allData : AllData) :
    Except String Value :=
  match rule.transform with
  | none => .ok value
  | some tr =>
    if value = .null then .ok value
    else if tr.ttype = some "lookup" then
      match tr.in_source with
      | some sourceName =>
          if sourceName ≠ "" then
            .ok (pyGet (allDataGetD allData sourceName (.dict [])) value)
          else .ok value
      | none => .ok value
    else if tr.ttype = some "split" then
      match value with
      | .s str =>
          let delim := tr.delimiter.getD ","
          if delim = "" then .error "ValueError: empty separator"
          else .ok (castPieces (splitPieces str delim) (tr.as_type.getD "string"))
      | _ => .ok value
    else .ok value

/-- `_resolve_simple_value(context, rule, all_data)`: raw lookup then
transform. -/
def resolveSimpleValue (ctx : Value) (rule : Rule) (allData : AllData) : Value :=
  applyTransform (getValue ctx rule allData) rule allData

/-- `_check_condition(context, condition_rule, all_data)`: a `None` key is
false; otherwise key membership in the named table (empty when the table
is absent), negated when the `exists` flag is falsy. -/
def checkCondition (ctx : Value) (cond : String × Rule × Bool) (allData : AllData) : Bool :=
  let sourceToCheck := allDataGetD allData cond.1 (.dict [])
  let keyToCheck := getValue ctx cond.2.1 allData
  if keyToCheck = .null then false
  else
    let ex := pyContains sourceToCheck keyToCheck
    if cond.2.2 then ex else !ex

/-- The `continue` guard of `_build_node`: a declared condition that fails. -/
def condSkip (ctx : Value) (ocond : Option (String × Rule × Bool)) (allData : AllData) : Bool :=
  match ocond with
  | some cond => !(checkCondition ctx cond allData)
  | none => false

/-- The coalesce loop of `_build_node` (lines 134–146): first sub-rule
whose resolved-and-transformed value is not `None`; `None` when all fail. -/
def coalesceValue (ctx : Value) (subs : List Rule) (allData : AllData) : Value :=
  match subs with
  | [] => .null
  | r :: rest =>
      let v := resolveSimpleValue ctx r allData
      if v = .null then coalesceValue ctx rest allData else v

mutual

/-- `_build_node(context, structure, all_data, level)` of
`src/src/resolver.py`: iterate the declared fields in order; skip a field
whose declared condition fails (`continue`); otherwise emit the field with
the value computed by the per-field dispatch `nodeValue`. Output records
are ordered entry lists, matching Python dict insertion order. -/
def buildNode (ctx : Value) (struc : List (String × Rule)) (allData : AllData)
    (level : Nat) : List (Value × Value) :=
  match struc with
  | [] => []
  | (key, rule) :: rest =>
      if condSkip ctx rule.condition allData then buildNode ctx rest allData level
      else (.s key, nodeValue ctx rule allData level) :: buildNode ctx rest allData level
termination_by (sizeOf struc, 0, 0)

/-- The per-field dispatch of `_build_node` (lines 130–181): `'coalesce' in
rule`, then `type == 'object'`, then `type == 'list'`, else simple lookup
plus transform. In the list branch, `rule['link_key']` and `rule['from']`
are read unconditionally (absence raises `KeyError` in Python; the model
yields `null` / the empty table, no claim exercises those rules). -/
def nodeValue (ctx : Value) (rule : Rule) (allData : AllData) (level : Nat) : Value :=
  match rule with
  | .mk olk ofrom ofield ofc fp otr ocond ocoal otype ofl oso =>
    match ocoal with
    | some subs => coalesceValue ctx subs allData
    | none =>
      if otype = some "object" then
        match ofl with
        | none => .null
        | some fl => .dict (buildNode ctx fl allData (level + 1))
      else if otype = some "list" then
        let lookupKey : Value :=
          match olk with
          | some lk => getValue ctx lk allData
          | none => .null
        let targetSource :=
          match ofrom with
          | some sourceName => allDataGetD allData sourceName (.dict [])
          | none => .dict []
        let linkedItem := pyGet targetSource lookupKey
        let linkedList : Value :=
          match ofield with
          | some fieldName =>
              if linkedItem.isDict then pyGetD linkedItem (.s fieldName) (.list [])
              else if linkedItem.isList then linkedItem else .list []
          | none => if linkedItem.isList then linkedItem else .list []
        match oso with
        | some so => .list (buildSubObjects so (pyIter linkedList) allData (level + 1))
        | none => linkedList
      else
        resolveSimpleValue ctx
          (.mk olk ofrom ofield ofc fp otr ocond ocoal otype ofl oso) allData
termination_by (sizeOf rule, 1, 0)

/-- The sub-object loop of the list branch: one nested record per list
item, the item becoming the context of the recursive build. -/
def buildSubObjects (so : List (String × Rule)) (items : List Value)
    (allData : AllData) (level : Nat) : List Value :=
  match items with
  | [] => []
  | item :: more =>
      .dict (buildNode item so allData level) :: buildSubObjects so more allData level
termination_by (sizeOf so, 2, sizeOf items)

end

set_option maxHeartbeats 8000000

/-- The list branch of the per-field dispatch (lines 155–179), as a plain
function of the keys it reads. -/
def listRuleValue (ctx : Value) (olk : Option Rule) (ofrom ofield : Option String)
    (oso : Option (List (String × Rule))) (allData : AllData) (level : Nat) : Value :=
  let lookupKey : Value :=
    match olk with
    | some lk => getValue ctx lk allData
    | none => .null
  let targetSource :=
    match ofrom with
    | some sourceName => allDataGetD allData sourceName (.dict [])
    | none => .dict []
  let linkedItem := pyGet targetSource lookupKey
  let linkedList : Value :=
    match ofield with
    | some fieldName =>
        if linkedItem.isDict then pyGetD linkedItem (.s fieldName) (.list [])
        else if linkedItem.isList then linkedItem else .list []
    | none => if linkedItem.isList then linkedItem else .list []
  match oso with
  | some so => .list (buildSubObjects so (pyIter linkedList) allData (level + 1))
  | none => linkedList

theorem buildNode_nil (ctx : Value) (allData : AllData) (level : Nat) :
    buildNode ctx [] allData level = [] := by
  rw [buildNode.eq_def]

theorem buildNode_cons (ctx : Value) (key : String) (rule : Rule)
    (rest : List (String × Rule)) (allData : AllData) (level : Nat) :
    buildNode ctx ((key, rule) :: rest) allData level =
      if condSkip ctx rule.condition allData then buildNode ctx rest allData level
      else (.s key, nodeValue ctx rule allData level) ::
        buildNode ctx rest allData level := by
  rw [buildNode.eq_def]

theorem buildSubObjects_nil (so : List (String × Rule)) (allData : AllData)
    (level : Nat) :
    buildSubObjects so [] allData level = [] := by
  rw [buildSubObjects.eq_def]

theorem buildSubObjects_cons (so : List (String × Rule)) (item : Value)
    (more : List Value) (allData : AllData) (level : Nat) :
    buildSubObjects so (item :: more) allData level =
      .dict (buildNode item so allData level) ::
        buildSubObjects so more allData level := by
  rw [buildSubObjects.eq_def]

theorem nodeValue_coalesce (ctx : Value) (olk : Option Rule)
    (ofrom ofield ofc : Option String) (fp : Bool) (otr : Option Transform)
    (ocond : Option (String × Rule × Bool)) (subs : List Rule)
    (otype : Option String) (ofl oso : Option (List (String × Rule)))
    (allData : AllData) (level : Nat) :
    nodeValue ctx (.mk olk ofrom ofield ofc fp otr ocond (some subs) otype ofl oso)
      allData level = coalesceValue ctx subs allData := by
  rw [nodeValue.eq_def]

theorem nodeValue_object_missing (ctx : Value) (olk : Option Rule)
    (ofrom ofield ofc : Option String) (fp : Bool) (otr : Option Transform)
    (ocond : Option (String × Rule × Bool)) (oso : Option (List (String × Rule)))
    (allData : AllData) (level : Nat) :
    nodeValue ctx (.mk olk ofrom ofield ofc fp otr ocond none (some "object") none oso)
      allData level = .null := by
  rw [nodeValue.eq_def]
  rfl

theorem nodeValue_object_fields (ctx : Value) (olk : Option Rule)
    (ofrom ofield ofc : Option String) (fp : Bool) (otr : Option Transform)
    (ocond : Option (String × Rule × Bool)) (fl : List (String × Rule))
    (oso : Option (List (String × Rule))) (allData : AllData) (level : Nat) :
    nodeValue ctx
      (.mk olk ofrom ofield ofc fp otr ocond none (some "object") (some fl) oso)
      allData level = .dict (buildNode ctx fl allData (level + 1)) := by
  rw [nodeValue.eq_def]
  rfl

theorem nodeValue_list (ctx : Value) (olk : Option Rule)
    (ofrom ofield ofc : Option String) (fp : Bool) (otr : Option Transform)
    (ocond : Option (String × Rule × Bool)) (ofl oso : Option (List (String × Rule)))
    (allData : AllData) (level : Nat) :
    nodeValue ctx (.mk olk ofrom ofield ofc fp otr ocond none (some "list") ofl oso)
      allData level = listRuleValue ctx olk ofrom ofield oso allData level := by
  rw [nodeValue.eq_def]
  rfl

theorem nodeValue_simple (ctx : Value) (olk : Option Rule)
    (ofrom ofield ofc : Option String) (fp : Bool) (otr : Option Transform)
    (ocond : Option (String × Rule × Bool)) (otype : Option String)
    (ofl oso : Option (List (String × Rule))) (allData : AllData) (level : Nat)
    (hobj : otype ≠ some "object") (hlist : otype ≠ some "list") :
    nodeValue ctx (.mk olk ofrom ofield ofc fp otr ocond none otype ofl oso)
      allData level =
      resolveSimpleValue ctx (.mk olk ofrom ofield ofc fp otr ocond none otype ofl oso)
        allData := by
  rw [nodeValue.eq_def]
  dsimp only
  rw [if_neg hobj, if_neg hlist]

/-- The resolution specification as read by `resolve_data`:
`output_structure` (required), `resolution_strategy` (optional) and
`primary_source` (required on the non-union path). -/
structure Spec where
  output_structure : List (String × Rule)
  resolution_strategy : Option String
  primary_source : String

/-- The root context built per item by `resolve_data`:
`{'union_id': item}` under the union strategy, else
`{spec['primary_source']: item}`. -/
def rootCtx (spec : Spec) (item : Value) : Value :=
  if spec.resolution_strategy = some "union" then .dict [(.s "union_id", item)]
  else .dict [(.s spec.primary_source, item)]

/-- `resolve_data(spec, all_data, items_to_process)` of
`src/src/resolver.py`: for each item in the given order, build the root
context and run `_build_node` over the declared output structure,
appending each resolved record to the result list. -/
def resolveData (spec : Spec) (allData : AllData) (items : List Value) : List Value :=
  items.foldl (fun acc item =>
    acc ++ [.dict (buildNode (rootCtx spec item) spec.output_structure allData 0)]) []

/-- CPython dict insertion `d[k] = v`: overwrite in place when the key is
present (keeping its original position), else append. -/
def dictInsert (entries : List (Value × Value)) (k v : Value) : List (Value × Value) :=
  match entries with
  | [] => [(k, v)]
  | (k0, v0) :: rest =>
      if k0 = k then (k0, v) :: rest else (k0, v0) :: dictInsert rest k v

/-- Option-valued dict lookup (observer used by the theorems below;
`pyGet` is its `None`-defaulting counterpart). -/
def dictFind? (entries : List (Value × Value)) (k : Value) : Option Value :=
  (entries.find? (fun p => p.1 == k)).map Prod.snd

/-- `create_lookup_map(data, key_field)` of
`src/src/transformers/standardizer.py`: the dict comprehension
`{item.get(key_field): item for item in data}` — one insertion per record
in source order, later duplicate keys overwriting earlier values. -/
def createLookupMap (data : List Value) (keyField : String) : List (Value × Value) :=
  data.foldl (fun acc item => dictInsert acc (pyGet item (.s keyField)) item) []

/-- `list.append(item)` on a group value. (The non-list arm is
unreachable: group values are built only by `groupInsert`.) -/
def groupAppend (v0 item : Value) : Value :=
  match v0 with
  | .list l => .list (l ++ [item])
  | v0 => v0

/-- `defaultdict(list)` append `grouped_data[k].append(item)`: extend the
list at an existing key in place, else append a new singleton group. -/
def groupInsert (entries : List (Value × Value)) (k item : Value) : List (Value × Value) :=
  match entries with
  | [] => [(k, .list [item])]
  | (k0, v0) :: rest =>
      if k0 = k then (k0, groupAppend v0 item) :: rest
      else (k0, v0) :: groupInsert rest k item

/-- `create_grouping_map(data, key_field)`: group records by
`item.get(key_field)` in source order, skipping records whose key is
`None`. -/
def createGroupingMap (data : List Value) (keyField : String) : List (Value × Value) :=
  data.foldl (fun acc item =>
    let k := pyGet item (.s keyField)
    if k = .null then acc else groupInsert acc k item) []

/-- The `name`/`strategy`/`key` fields of a source specification as read
by `standardize_source`. -/
structure SourceSpec where
  name : String
  strategy : Option String
  key : Option String

/-- `standardize_source(source_data, source_spec)` of
`src/src/transformers/standardizer.py`: `group_by` requires a truthy key
(else `ValueError`); otherwise a truthy key yields the lookup map and no
key returns the raw data unchanged. -/
def standardizeSource (sourceData : List Value) (spec : SourceSpec) :
    Except String Value :=
  let strategy := spec.strategy.getD "lookup"
  if strategy = "group_by" then
    match spec.key with
    | some k =>
        if k ≠ "" then .ok (.dict (createGroupingMap sourceData k))
        else .error "ValueError: group_by requires a key"
    | none => .error "ValueError: group_by requires a key"
  else
    match spec.key with
    | some k =>
        if k ≠ "" then .ok (.dict (createLookupMap sourceData k))
        else .ok (.list sourceData)
    | none => .ok (.list sourceData)

/-! ## Shared concrete rule builders for witnesses and counterexamples -/

/-- A Direct rule `{from: ..., field: ...}`. -/
def directRule (sourceName fieldName : String) : Rule :=
  .mk none (some sourceName) (some fieldName) none false none none none none none none

/-- A Context-alias rule `{from_context: ...}`. -/
def contextRule (aliasName : String) : Rule :=
  .mk none none none (some aliasName) false none none none none none none

/-- A Parent-passthrough rule `{from_parent: true, field: ...}`. -/
def parentFieldRule (fieldName : String) : Rule :=
  .mk none none (some fieldName) none true none none none none none none

/-- A Linked rule `{link_key: ..., from: ..., field: ...}`. -/
def linkedRule (lk : Rule) (sourceName : String) (ofield : Option String) : Rule :=
  .mk (some lk) (some sourceName) ofield none false none none none none none none

/-! ## C5 — Linked rule null-safety -/

/-- **C5.** For every context, table set, and Linked rule: a `link_key`
resolving to `None`, or a target table without the resolved key (in
particular an absent target table), makes the rule's value `None` — no
exception is possible, and the `field` step never runs. When the link key
resolved (non-`None`) and the keyed entry exists, a declared `field`
extracts that field of a record entry (`None` for a non-record entry),
and without a declared `field` the value is the entry itself. -/
theorem claim5_linked_null_safety (ctx : Value) (rule lk : Rule) (src : String)
    (allData : AllData) (hlk : rule.link_key = some lk)
    (hfrom : rule.from_src = some src) :
    (getValue ctx lk allData = .null → getValue ctx rule allData = .null) ∧
    (pyGet (allDataGetD allData src (.dict [])) (getValue ctx lk allData) = .null →
      getValue ctx rule allData = .null) ∧
    (∀ entry, getValue ctx lk allData ≠ .null →
      entry = pyGet (allDataGetD allData src (.dict [])) (getValue ctx lk allData) →
      entry ≠ .null →
      (∀ fieldName, rule.field = some fieldName →
        getValue ctx rule allData =
          if entry.isDict then pyGet entry (.s fieldName) else .null) ∧
      (rule.field = none → getValue ctx rule allData = entry)) := by
  obtain ⟨olk, ofrom, ofield, ofc, fp, otr, ocond, ocoal, otype, ofl, oso⟩ := rule
  simp only [Rule.link_key] at hlk
  simp only [Rule.from_src] at hfrom
  subst hlk; subst hfrom
  simp only [getValue, Rule.field]
  cases h : allDataGet? allData src with
  | none =>
      simp only [allDataGetD, h, Option.getD_none]
      rw [show ∀ k, pyGet (.dict []) k = Value.null from fun _ => rfl]
      exact ⟨fun _ => by trivial, fun _ => by trivial,
        fun entry _ hentry hne => absurd hentry hne⟩
  | some targetSource =>
      simp only [allDataGetD, h, Option.getD_some]
      by_cases hnull : getValue ctx lk allData = .null
      · rw [if_pos hnull]
        exact ⟨fun _ => rfl, fun _ => rfl,
          fun entry hknn _ _ => absurd hnull hknn⟩
      · rw [if_neg hnull]
        by_cases hitem : pyGet targetSource (getValue ctx lk allData) = .null
        · rw [hitem, if_pos rfl]
          exact ⟨fun h2 => absurd h2 hnull, fun _ => rfl,
            fun entry _ hentry hne => absurd hentry hne⟩
        · rw [if_neg hitem]
          refine ⟨fun h2 => absurd h2 hnull, fun h2 => absurd h2 hitem,
            fun entry _ hentry hne => ⟨fun fieldName hfield => ?_, fun hfield => ?_⟩⟩
          · subst hfield; subst hentry; rfl
          · subst hfield; subst hentry; rfl

def wolfLink : Rule := directRule "spawner" "creature_id"

def wolfRule : Rule := linkedRule wolfLink "creatures" (some "name")

def wolfData : AllData :=
  [("creatures", .dict [(.s "c1", .dict [(.s "name", .s "Wolf")])])]

/-- Witness for C5 at the spec's link-traversal example: context
`spawner={"creature_id":"c1"}` resolves to `"Wolf"`, and the `"missing"`
key resolves to `None`. -/
theorem claim5_linked_null_safety_witness :
    getValue (.dict [(.s "spawner", .dict [(.s "creature_id", .s "c1")])])
      wolfRule wolfData = .s "Wolf" ∧
    getValue (.dict [(.s "spawner", .dict [(.s "creature_id", .s "missing")])])
      wolfRule wolfData = .null := by
  constructor
  · have h := (claim5_linked_null_safety
      (.dict [(.s "spawner", .dict [(.s "creature_id", .s "c1")])])
      wolfRule wolfLink "creatures" wolfData rfl rfl).2.2
    have h2 := (h (.dict [(.s "name", .s "Wolf")]) (by decide) (by decide)
      (by decide)).1 "name" rfl
    rw [h2]; decide
  · exact (claim5_linked_null_safety
      (.dict [(.s "spawner", .dict [(.s "creature_id", .s "missing")])])
      wolfRule wolfLink "creatures" wolfData rfl rfl).2.1 (by decide)

/-- A field without a declared condition is never skipped. -/
theorem buildNode_cons_nocond (ctx : Value) (key : String) (rule : Rule)
    (rest : List (String × Rule)) (allData : AllData) (level : Nat)
    (h : rule.condition = none) :
    buildNode ctx ((key, rule) :: rest) allData level =
      (.s key, nodeValue ctx rule allData level) ::
        buildNode ctx rest allData level := by
  rw [buildNode_cons, h]
  rw [show condSkip ctx none allData = false from rfl]
  simp

/-- The coalesce loop returns the first non-`None` resolved sub-rule. -/
theorem coalesceValue_append_first (ctx : Value) (allData : AllData) :
    ∀ (rs1 : List Rule) (r : Rule) (rs2 : List Rule),
      (∀ r0 ∈ rs1, resolveSimpleValue ctx r0 allData = .null) →
      resolveSimpleValue ctx r allData ≠ .null →
      coalesceValue ctx (rs1 ++ r :: rs2) allData = resolveSimpleValue ctx r allData
  | [], r, rs2, _, hr => by
      simp only [List.nil_append, coalesceValue]
      rw [if_neg hr]
  | r0 :: rs1, r, rs2, hnull, hr => by
      simp only [List.cons_append, coalesceValue]
      rw [hnull r0 (by simp), if_pos rfl]
      exact coalesceValue_append_first ctx allData rs1 r rs2
        (fun x hx => hnull x (by simp [hx])) hr

/-- The coalesce loop returns `None` when every sub-rule resolves `None`. -/
theorem coalesceValue_all_null (ctx : Value) (allData : AllData) :
    ∀ subs : List Rule,
      (∀ r0 ∈ subs, resolveSimpleValue ctx r0 allData = .null) →
      coalesceValue ctx subs allData = .null
  | [], _ => rfl
  | r0 :: rest, hnull => by
      simp only [coalesceValue]
      rw [hnull r0 (by simp), if_pos rfl]
      exact coalesceValue_all_null ctx allData rest
        (fun x hx => hnull x (by simp [hx]))

/-! ## C2 — Coalesce: first non-null wins, short-circuit; all-null gives null -/

/-- **C2.** For every context, table set, and Coalesce rule: the field's
value is the result of the first sub-rule (in list order, each a simple
lookup plus optional transform) that resolves non-`None`; sub-rules after
the winner never influence the result (the conclusion is independent of
`rs2`); and if every sub-rule resolves `None`, the field is still present
in the output record, with value `None`. -/
theorem claim2_coalesce_first_nonnull (ctx : Value) (key : String) (rule : Rule)
    (rest : List (String × Rule)) (allData : AllData) (level : Nat)
    (subs : List Rule) (hco : rule.coalesce = some subs)
    (hcond : rule.condition = none) :
    (∀ (rs1 : List Rule) (r : Rule) (rs2 : List Rule), subs = rs1 ++ r :: rs2 →
      (∀ r0 ∈ rs1, resolveSimpleValue ctx r0 allData = .null) →
      resolveSimpleValue ctx r allData ≠ .null →
      buildNode ctx ((key, rule) :: rest) allData level =
        (.s key, resolveSimpleValue ctx r allData) ::
          buildNode ctx rest allData level) ∧
    ((∀ r0 ∈ subs, resolveSimpleValue ctx r0 allData = .null) →
      buildNode ctx ((key, rule) :: rest) allData level =
        (.s key, .null) :: buildNode ctx rest allData level) := by
  obtain ⟨olk, ofrom, ofield, ofc, fp, otr, ocond, ocoal, otype, ofl, oso⟩ := rule
  simp only [Rule.coalesce] at hco
  subst hco
  rw [buildNode_cons_nocond _ _ _ _ _ _ hcond, nodeValue_coalesce]
  constructor
  · intro rs1 r rs2 hsplit hnull hr
    subst hsplit
    rw [coalesceValue_append_first ctx allData rs1 r rs2 hnull hr]
  · intro hnull
    rw [coalesceValue_all_null ctx allData subs hnull]

def coalCtx : Value := .dict [(.s "src", .dict [(.s "b", .i 5)])]

def coalRule : Rule :=
  .mk none none none none false none none
    (some [directRule "src" "a", directRule "src" "b", directRule "nope" "x"])
    none none none

/-- Witness for C2 at the spec's short-circuit example: sub-rules
`[A, B, C]` with A resolving `None` and B resolving `5` give `5`, with C
(itself failing) never influencing the result. -/
theorem claim2_coalesce_first_nonnull_witness :
    buildNode coalCtx [("val", coalRule)] [] 0 = [(.s "val", .i 5)] := by
  have h := (claim2_coalesce_first_nonnull coalCtx "val" coalRule [] [] 0
    [directRule "src" "a", directRule "src" "b", directRule "nope" "x"] rfl rfl).1
    [directRule "src" "a"] (directRule "src" "b") [directRule "nope" "x"]
    rfl (by decide) (by decide)
  rw [h, buildNode_nil]
  decide

/-- Appending through a left fold is `map`. -/
theorem foldl_append_eq_map {α β : Type} (g : α → β) :
    ∀ (l : List α) (acc : List β),
      l.foldl (fun a x => a ++ [g x]) acc = acc ++ l.map g
  | [], acc => by simp
  | x :: xs, acc => by
      simp only [List.foldl_cons, List.map_cons]
      rw [foldl_append_eq_map g xs (acc ++ [g x])]
      simp

/-- `resolve_data` is exactly a map of the per-item build over the input
sequence. -/
theorem resolveData_eq_map (spec : Spec) (allData : AllData) (items : List Value) :
    resolveData spec allData items =
      items.map (fun item =>
        .dict (buildNode (rootCtx spec item) spec.output_structure allData 0)) := by
  unfold resolveData
  rw [foldl_append_eq_map]
  simp

/-! ## C8 — Driver: one record per item, in item order -/

/-- **C8.** For every specification, table set, and ordered item sequence:
`resolve_data` emits exactly one resolved record per input item, the i-th
output being `_build_node` applied to the i-th item's root context —
`{'union_id': item}` under the union strategy, `{primary_source: item}`
otherwise — so output order equals input order. -/
theorem claim8_driver_order (spec : Spec) (allData : AllData) (items : List Value) :
    resolveData spec allData items =
      items.map (fun item =>
        .dict (buildNode (rootCtx spec item) spec.output_structure allData 0)) ∧
    (resolveData spec allData items).length = items.length ∧
    (∀ idx : Nat, (resolveData spec allData items).get? idx =
      (items.get? idx).map (fun item =>
        .dict (buildNode (rootCtx spec item) spec.output_structure allData 0))) ∧
    (∀ item, spec.resolution_strategy = some "union" →
      rootCtx spec item = .dict [(.s "union_id", item)]) ∧
    (∀ item, spec.resolution_strategy ≠ some "union" →
      rootCtx spec item = .dict [(.s spec.primary_source, item)]) := by
  refine ⟨resolveData_eq_map spec allData items, ?_, ?_, ?_, ?_⟩
  · rw [resolveData_eq_map]; simp
  · intro idx; rw [resolveData_eq_map]; simp
  · intro item h; rw [rootCtx, if_pos h]
  · intro item h; rw [rootCtx, if_neg h]

/-- `nodeValue` on a Direct rule is the simple lookup plus transform. -/
theorem nodeValue_direct (ctx : Value) (a c : String) (allData : AllData)
    (level : Nat) :
    nodeValue ctx (directRule a c) allData level =
      resolveSimpleValue ctx (directRule a c) allData := by
  rw [directRule]
  exact nodeValue_simple ctx none (some a) (some c) none false none none none
    none none allData level (by simp) (by simp)

def w8spec : Spec := ⟨[("n", directRule "it" "n")], none, "it"⟩

/-- Witness for C8: a two-item run under the `primary_source` strategy
produces the two records in item order, and the root context for an item
binds it to the primary-source alias. -/
theorem claim8_driver_order_witness :
    resolveData w8spec [] [.dict [(.s "n", .i 1)], .dict [(.s "n", .i 2)]] =
      [.dict [(.s "n", .i 1)], .dict [(.s "n", .i 2)]] ∧
    rootCtx w8spec (.i 9) = .dict [(.s "it", .i 9)] := by
  constructor
  · rw [(claim8_driver_order w8spec []
      [.dict [(.s "n", .i 1)], .dict [(.s "n", .i 2)]]).1]
    simp only [w8spec, List.map_cons, List.map_nil]
    rw [buildNode_cons_nocond _ _ _ _ _ _ (by rfl), buildNode_nil,
      buildNode_cons_nocond _ _ _ _ _ _ (by rfl), buildNode_nil,
      nodeValue_direct, nodeValue_direct]
    decide
  · exact (claim8_driver_order w8spec [] []).2.2.2.2 (.i 9) (by simp [w8spec])

/-! ## C9 — Object rule without nested fields: null, run continues -/

/-- **C9.** For every context and table set, an Object rule lacking its
nested `fields` definition does not abort resolution: the field's value
becomes `None` while every sibling field still resolves (the rest of the
structure is built unchanged), and every subsequent item is still resolved
(`resolve_data` always emits one record per item). With `fields` present,
the value is the recursive build of the nested structure under the same,
unchanged context. -/
theorem claim9_object_missing_fields (ctx : Value) (key : String) (rule : Rule)
    (rest : List (String × Rule)) (allData : AllData) (level : Nat)
    (hcond : rule.condition = none) (hco : rule.coalesce = none)
    (hty : rule.type_tag = some "object") :
    (rule.fields = none →
      buildNode ctx ((key, rule) :: rest) allData level =
        (.s key, .null) :: buildNode ctx rest allData level) ∧
    (∀ fl, rule.fields = some fl →
      buildNode ctx ((key, rule) :: rest) allData level =
        (.s key, .dict (buildNode ctx fl allData (level + 1))) ::
          buildNode ctx rest allData level) ∧
    (∀ spec items, (resolveData spec allData items).length = items.length) := by
  obtain ⟨olk, ofrom, ofield, ofc, fp, otr, ocond, ocoal, otype, ofl, oso⟩ := rule
  simp only [Rule.coalesce] at hco
  simp only [Rule.type_tag] at hty
  simp only [Rule.fields]
  subst hco; subst hty
  refine ⟨fun hfl => ?_, fun fl hfl => ?_, fun spec items => ?_⟩
  · subst hfl
    rw [buildNode_cons_nocond _ _ _ _ _ _ hcond, nodeValue_object_missing]
  · subst hfl
    rw [buildNode_cons_nocond _ _ _ _ _ _ hcond, nodeValue_object_fields]
  · rw [resolveData_eq_map]; simp

def brokenObjRule : Rule :=
  .mk none none none none false none none none (some "object") none none

/-- Witness for C9: an Object rule without `fields` yields `None` while
its sibling field still resolves. -/
theorem claim9_object_missing_fields_witness :
    buildNode (.dict [(.s "src", .dict [(.s "x", .i 7)])])
      [("bad", brokenObjRule), ("good", directRule "src" "x")] [] 0 =
      [(.s "bad", .null), (.s "good", .i 7)] := by
  rw [(claim9_object_missing_fields (.dict [(.s "src", .dict [(.s "x", .i 7)])])
    "bad" brokenObjRule [("good", directRule "src" "x")] [] 0 rfl rfl rfl).1 rfl]
  rw [buildNode_cons_nocond _ _ _ _ _ _ (by rfl), buildNode_nil, nodeValue_direct]
  decide

/-! ## C3 — Conditional fields: omission, order, condition semantics -/

/-- **C3.** For every context, structure, and table set: the built record
has exactly the declared fields whose condition (if any) holds, in
declaration order — a field with a failing condition is entirely absent,
not `None`-valued. A condition whose key rule resolves to `None` is false;
otherwise it is the membership of the resolved key in the named table's
key set, negated when the `exists` flag is falsy. -/
theorem claim3_condition_omission (ctx : Value) (struc : List (String × Rule))
    (allData : AllData) (level : Nat) :
    ((buildNode ctx struc allData level).map Prod.fst =
      (struc.filter (fun kr => !condSkip ctx kr.2.condition allData)).map
        (fun kr => Value.s kr.1)) ∧
    (∀ (src : String) (keyRule : Rule) (ex : Bool),
      getValue ctx keyRule allData = .null →
      checkCondition ctx (src, keyRule, ex) allData = false) ∧
    (∀ (src : String) (keyRule : Rule) (ex : Bool),
      getValue ctx keyRule allData ≠ .null →
      checkCondition ctx (src, keyRule, ex) allData =
        (if ex then
          pyContains (allDataGetD allData src (.dict [])) (getValue ctx keyRule allData)
         else
          !pyContains (allDataGetD allData src (.dict [])) (getValue ctx keyRule allData))) := by
  refine ⟨?_, fun src keyRule ex hnull => ?_, fun src keyRule ex hnn => ?_⟩
  · induction struc with
    | nil => rw [buildNode_nil]; rfl
    | cons head rest ih =>
        obtain ⟨key, rule⟩ := head
        rw [buildNode_cons]
        by_cases h : condSkip ctx rule.condition allData
        · rw [if_pos h, List.filter_cons]
          simp [h, ih]
        · rw [if_neg h, List.filter_cons]
          simp [h, ih]
  · simp only [checkCondition]
    rw [if_pos hnull]
  · simp only [checkCondition]
    rw [if_neg hnn]

def condDemoRule : Rule :=
  .mk none (some "ctx") (some "id") none false none
    (some ("items", directRule "ctx" "id", false)) none none none none

def condDemoData : AllData := [("items", .dict [(.s "a", .i 0)])]

/-- Witness for C3 at the spec's condition-omission example: with
`exists: false` and the key present in `items`, the field is absent from
the output while the unconditional sibling remains; the failing check
itself evaluates to `false`. -/
theorem claim3_condition_omission_witness :
    (buildNode (.dict [(.s "ctx", .dict [(.s "id", .s "a")])])
      [("maybe", condDemoRule), ("always", directRule "ctx" "id")]
      condDemoData 0).map Prod.fst = [.s "always"] ∧
    checkCondition (.dict [(.s "ctx", .dict [(.s "id", .s "a")])])
      ("items", directRule "ctx" "id", false) condDemoData = false := by
  constructor
  · rw [(claim3_condition_omission (.dict [(.s "ctx", .dict [(.s "id", .s "a")])])
      [("maybe", condDemoRule), ("always", directRule "ctx" "id")]
      condDemoData 0).1]
    decide
  · rw [(claim3_condition_omission (.dict [(.s "ctx", .dict [(.s "id", .s "a")])])
      [] condDemoData 0).2.2 "items" (directRule "ctx" "id") false (by decide)]
    decide

/-! ## C4 — Split transform (corrected: the delimiter must be nonempty) -/

def emptyDelimSplitRule : Rule :=
  .mk none none none none false
    (some ⟨some "split", none, some "", none⟩) none none none none none

/-- **C4, counterexample.** The claim quantifies over *every* split
transform, but a split transform whose configured delimiter is the empty
string raises an uncaught `ValueError` from `str.split('')` (the `try`
around the casts does not guard the split itself), so an exception does
escape and no list is produced. -/
theorem claim4_split_counterexample :
    applyTransformE (.s "a,b") emptyDelimSplitRule [] =
      .error "ValueError: empty separator" := by
  rfl

/-- **C4, amended.** For every string value and every split transform
whose configured delimiter is nonempty (the comma default included):
no exception escapes; the string is split on the delimiter, every piece
is trimmed and empty pieces are dropped; with `as_type` `int` (resp.
`float`) the pieces are all cast when every cast succeeds, and if any
single cast fails the entire result is the trimmed-string list — never a
partially cast list; any other target type yields the trimmed-string
list. -/
theorem claim4_split_amended (str : String) (rule : Rule) (tr : Transform)
    (allData : AllData) (htr : rule.transform = some tr)
    (hty : tr.ttype = some "split") (hde : tr.delimiter.getD "," ≠ "") :
    (applyTransformE (.s str) rule allData =
      .ok (applyTransform (.s str) rule allData)) ∧
    (tr.as_type.getD "string" = "int" →
      ((∀ p ∈ ((pySplit str (tr.delimiter.getD ",")).map pyStrip).filter
          (fun p => p ≠ ""), (pyParseInt p).isSome) →
        applyTransform (.s str) rule allData =
          .list ((((pySplit str (tr.delimiter.getD ",")).map pyStrip).filter
            (fun p => p ≠ "")).map (fun p => .i ((pyParseInt p).getD 0)))) ∧
      ((∃ p ∈ ((pySplit str (tr.delimiter.getD ",")).map pyStrip).filter
          (fun p => p ≠ ""), ¬(pyParseInt p).isSome) →
        applyTransform (.s str) rule allData =
          .list ((((pySplit str (tr.delimiter.getD ",")).map pyStrip).filter
            (fun p => p ≠ "")).map .s))) ∧
    (tr.as_type.getD "string" = "float" →
      ((∀ p ∈ ((pySplit str (tr.delimiter.getD ",")).map pyStrip).filter
          (fun p => p ≠ ""), (pyParseFloat p).isSome) →
        applyTransform (.s str) rule allData =
          .list ((((pySplit str (tr.delimiter.getD ",")).map pyStrip).filter
            (fun p => p ≠ "")).map (fun p => (pyParseFloat p).getD .null))) ∧
      ((∃ p ∈ ((pySplit str (tr.delimiter.getD ",")).map pyStrip).filter
          (fun p => p ≠ ""), ¬(pyParseFloat p).isSome) →
        applyTransform (.s str) rule allData =
          .list ((((pySplit str (tr.delimiter.getD ",")).map pyStrip).filter
            (fun p => p ≠ "")).map .s))) ∧
    (tr.as_type.getD "string" ≠ "int" → tr.as_type.getD "string" ≠ "float" →
      applyTransform (.s str) rule allData =
        .list ((((pySplit str (tr.delimiter.getD ",")).map pyStrip).filter
          (fun p => p ≠ "")).map .s)) := by
  obtain ⟨ttype, in_source, delimiter, as_type⟩ := tr
  simp only [Transform.ttype] at hty
  simp only [Transform.delimiter] at hde
  simp only [Transform.as_type, Transform.delimiter]
  subst hty
  have happ : applyTransform (.s str) rule allData =
      castPieces (splitPieces str (delimiter.getD ","))
        (as_type.getD "string") := by
    simp only [applyTransform, htr, Transform.ttype, Transform.in_source,
      Transform.delimiter, Transform.as_type]
    rw [if_neg (show ¬(Value.s str = Value.null) by simp)]
    rw [if_neg (show ¬((some "split" : Option String) = some "lookup") by simp)]
    rw [if_pos trivial]
  have happE : applyTransformE (.s str) rule allData =
      .ok (applyTransform (.s str) rule allData) := by
    rw [happ]
    simp only [applyTransformE, htr, Transform.ttype, Transform.in_source,
      Transform.delimiter, Transform.as_type]
    rw [if_neg (show ¬(Value.s str = Value.null) by simp)]
    rw [if_neg (show ¬((some "split" : Option String) = some "lookup") by simp)]
    rw [if_pos trivial, if_neg hde]
  refine ⟨happE, fun hint => ⟨fun hall => ?_, fun hex => ?_⟩,
    fun hfloat => ⟨fun hall => ?_, fun hex => ?_⟩, fun hni hnf => ?_⟩
  · rw [happ, hint]
    unfold castPieces
    rw [if_pos rfl, splitPieces,
      if_pos (by rw [List.all_eq_true]; exact fun p hp => hall p (by
        simpa [splitPieces] using hp))]
  · obtain ⟨p, hp, hnp⟩ := hex
    rw [happ, hint]
    unfold castPieces
    rw [if_pos rfl, splitPieces,
      if_neg (by
        rw [List.all_eq_true]
        exact fun hall2 => hnp (hall2 p (by simpa [splitPieces] using hp)))]
  · rw [happ, hfloat]
    unfold castPieces
    rw [if_neg (by simp), if_pos rfl, splitPieces,
      if_pos (by rw [List.all_eq_true]; exact fun p hp => hall p (by
        simpa [splitPieces] using hp))]
  · obtain ⟨p, hp, hnp⟩ := hex
    rw [happ, hfloat]
    unfold castPieces
    rw [if_neg (by simp), if_pos rfl, splitPieces,
      if_neg (by
        rw [List.all_eq_true]
        exact fun hall2 => hnp (hall2 p (by simpa [splitPieces] using hp)))]
  · rw [happ]
    unfold castPieces
    rw [if_neg hni, if_neg hnf, splitPieces]

def intSplitRule : Rule :=
  .mk none none none none false
    (some ⟨some "split", none, some ",", some "int"⟩) none none none none none

def strSplitRule : Rule :=
  .mk none none none none false
    (some ⟨some "split", none, none, none⟩) none none none none none

/-- Witness for the amended C4 at the spec's round-trip examples:
`"1, 2,3"` with `as_type: int` gives `[1,2,3]`, and `"a, ,b"` with the
default string type gives `["a","b"]` (the empty piece dropped). -/
theorem claim4_split_amended_witness :
    applyTransform (.s "1, 2,3") intSplitRule [] = .list [.i 1, .i 2, .i 3] ∧
    applyTransform (.s "a, ,b") strSplitRule [] = .list [.s "a", .s "b"] := by
  constructor
  · rw [((claim4_split_amended "1, 2,3" intSplitRule
      ⟨some "split", none, some ",", some "int"⟩ [] rfl rfl (by decide)).2.1
      (by decide)).1 (by decide)]
    decide
  · rw [(claim4_split_amended "a, ,b" strSplitRule
      ⟨some "split", none, none, none⟩ [] rfl rfl (by decide)).2.2.2
      (by decide) (by decide)]
    decide

/-! ## Dict-building lemmas for the standardizer -/

theorem dictFind?_dictInsert (k v k2 : Value) :
    ∀ entries, dictFind? (dictInsert entries k v) k2 =
      if k2 = k then some v else dictFind? entries k2
  | [] => by
      by_cases h : k2 = k
      · have hb : (k == k2) = true := by rw [beq_iff_eq]; exact h.symm
        rw [if_pos h]
        simp [dictInsert, dictFind?, List.find?, hb]
      · have hb : (k == k2) = false := beq_eq_false_iff_ne.mpr (fun hh => h hh.symm)
        rw [if_neg h]
        simp [dictInsert, dictFind?, List.find?, hb]
  | (k0, v0) :: rest => by
      by_cases h0 : k0 = k
      · subst h0
        rw [dictInsert, if_pos rfl]
        by_cases h : k2 = k0
        · have hb : (k0 == k2) = true := by rw [beq_iff_eq]; exact h.symm
          rw [if_pos h]
          simp [dictFind?, List.find?, hb]
        · have hb : (k0 == k2) = false := beq_eq_false_iff_ne.mpr (fun hh => h hh.symm)
          rw [if_neg h]
          simp [dictFind?, List.find?, hb]
      · rw [dictInsert, if_neg h0]
        by_cases h : k2 = k0
        · subst h
          have hb : (k2 == k2) = true := by rw [beq_iff_eq]
          have hkk : ¬(k2 = k) := fun hh => h0 hh
          rw [if_neg hkk]
          simp [dictFind?, List.find?, hb]
        · have hb : (k0 == k2) = false := beq_eq_false_iff_ne.mpr (fun hh => h hh.symm)
          have ih := dictFind?_dictInsert k v k2 rest
          simp only [dictFind?, List.find?, hb] at ih ⊢
          exact ih

theorem keys_dictInsert (k v : Value) :
    ∀ entries, (dictInsert entries k v).map Prod.fst =
      if k ∈ entries.map Prod.fst then entries.map Prod.fst
      else entries.map Prod.fst ++ [k]
  | [] => by simp [dictInsert]
  | (k0, v0) :: rest => by
      by_cases h0 : k0 = k
      · subst h0
        rw [dictInsert, if_pos rfl]
        simp
      · rw [dictInsert, if_neg h0]
        have ih := keys_dictInsert k v rest
        by_cases hmem : k ∈ rest.map Prod.fst
        · rw [if_pos hmem] at ih
          simp only [List.map_cons, ih]
          rw [if_pos (by simp [hmem])]
        · rw [if_neg hmem] at ih
          simp only [List.map_cons, ih]
          rw [if_neg (by simp [hmem]; exact fun hh => h0 hh.symm)]
          simp

theorem nodup_keys_dictInsert (k v : Value) (entries : List (Value × Value))
    (h : (entries.map Prod.fst).Nodup) :
    ((dictInsert entries k v).map Prod.fst).Nodup := by
  rw [keys_dictInsert]
  by_cases hmem : k ∈ entries.map Prod.fst
  · rw [if_pos hmem]; exact h
  · rw [if_neg hmem]
    simpa using List.Nodup.append h (by simp) (by simpa using hmem)

/-- Keys of the lookup map are duplicate-free: every fold step preserves
the invariant. -/
theorem createLookupMap_fold_nodup (kf : String) :
    ∀ (data : List Value) (acc : List (Value × Value)),
      (acc.map Prod.fst).Nodup →
      ((data.foldl (fun a it => dictInsert a (pyGet it (.s kf)) it) acc).map
        Prod.fst).Nodup
  | [], acc, h => h
  | it :: its, acc, h => by
      simp only [List.foldl_cons]
      exact createLookupMap_fold_nodup kf its _ (nodup_keys_dictInsert _ _ _ h)

theorem listFindAppend {α : Type} (p : α → Bool) :
    ∀ l1 l2 : List α, (l1 ++ l2).find? p =
      match l1.find? p with
      | some x => some x
      | none => l2.find? p
  | [], l2 => by simp
  | x :: xs, l2 => by
      by_cases h : p x
      · simp [List.find?_cons_of_pos _ h]
      · rw [List.cons_append, List.find?_cons_of_neg _ h, List.find?_cons_of_neg _ h]
        exact listFindAppend p xs l2

/-- Last-write-wins: looking a key up in the folded lookup map finds the
most recent record with that key, falling back to the accumulator. -/
theorem createLookupMap_fold_find (kf : String) (k : Value) :
    ∀ (data : List Value) (acc : List (Value × Value)),
      dictFind? (data.foldl (fun a it => dictInsert a (pyGet it (.s kf)) it) acc) k =
        match data.reverse.find? (fun it => pyGet it (.s kf) == k) with
        | some it => some it
        | none => dictFind? acc k
  | [], acc => by simp
  | it :: its, acc => by
      simp only [List.foldl_cons, List.reverse_cons]
      rw [createLookupMap_fold_find kf k its _, listFindAppend]
      cases hh : its.reverse.find? (fun it2 => pyGet it2 (.s kf) == k) with
      | some x => rfl
      | none =>
          rw [dictFind?_dictInsert]
          by_cases hk : pyGet it (.s kf) = k
          · have hf : List.find? (fun it2 => pyGet it2 (Value.s kf) == k) [it] = some it :=
              List.find?_cons_of_pos _ (by simp [hk])
            rw [if_pos hk.symm]
            simp [hf]
          · have hf : List.find? (fun it2 => pyGet it2 (Value.s kf) == k) [it] = none := by
              rw [List.find?_cons_of_neg _ (by simp [hk]), List.find?_nil]
            rw [if_neg (fun h2 => hk h2.symm)]
            simp [hf]

theorem dictFind?_groupInsert (k item k2 : Value) :
    ∀ entries, dictFind? (groupInsert entries k item) k2 =
      if k2 = k then
        match dictFind? entries k with
        | some v => some (groupAppend v item)
        | none => some (.list [item])
      else dictFind? entries k2
  | [] => by
      by_cases h : k2 = k
      · subst h
        simp [groupInsert, dictFind?, List.find?]
      · have hb : (k == k2) = false := beq_eq_false_iff_ne.mpr (fun hh => h hh.symm)
        simp only [groupInsert, dictFind?, if_neg h]
        rw [List.find?_cons_of_neg _ (by simp [hb])]
  | (k0, v0) :: rest => by
      by_cases h0 : k0 = k
      · subst h0
        rw [groupInsert, if_pos rfl]
        by_cases h : k2 = k0
        · subst h
          rw [if_pos rfl]
          simp only [dictFind?]
          rw [List.find?_cons_of_pos _ (by simp), List.find?_cons_of_pos _ (by simp)]
          rfl
        · have hb : (k0 == k2) = false := beq_eq_false_iff_ne.mpr (fun hh => h hh.symm)
          rw [if_neg h]
          simp only [dictFind?]
          rw [List.find?_cons_of_neg _ (by simp [hb]),
            List.find?_cons_of_neg _ (by simp [hb])]
      · rw [groupInsert, if_neg h0]
        by_cases h : k2 = k0
        · subst h
          rw [if_neg h0]
          simp only [dictFind?]
          rw [List.find?_cons_of_pos _ (by simp), List.find?_cons_of_pos _ (by simp)]
        · have hb : (k0 == k2) = false := beq_eq_false_iff_ne.mpr (fun hh => h hh.symm)
          have hbk : (k0 == k) = false := beq_eq_false_iff_ne.mpr h0
          have ih := dictFind?_groupInsert k item k2 rest
          simp only [dictFind?] at ih ⊢
          rw [List.find?_cons_of_neg _ (by simp [hb]),
            List.find?_cons_of_neg _ (by simp [hbk]),
            List.find?_cons_of_neg _ (by simp [hb])]
          exact ih

/-- Grouping fold characterization: for a non-`None` key, the folded group
is the source-ordered filter of matching records appended to whatever the
accumulator already held for that key. -/
theorem createGroupingMap_fold_find (kf : String) (k : Value) (hk : k ≠ Value.null) :
    ∀ (data : List Value) (acc : List (Value × Value)),
      (dictFind? acc k = none →
        dictFind? (data.foldl (fun a it =>
            if pyGet it (.s kf) = .null then a
            else groupInsert a (pyGet it (.s kf)) it) acc) k =
          (if data.filter (fun it => pyGet it (.s kf) == k) = [] then none
           else some (.list (data.filter (fun it => pyGet it (.s kf) == k))))) ∧
      (∀ l0, dictFind? acc k = some (.list l0) →
        dictFind? (data.foldl (fun a it =>
            if pyGet it (.s kf) = .null then a
            else groupInsert a (pyGet it (.s kf)) it) acc) k =
          some (.list (l0 ++ data.filter (fun it => pyGet it (.s kf) == k))))
  | [], acc => by
      refine ⟨fun h => ?_, fun l0 h => ?_⟩ <;> simp [h]
  | it :: its, acc => by
      by_cases hnull : pyGet it (.s kf) = .null
      · have hb : (pyGet it (.s kf) == k) = false :=
          beq_eq_false_iff_ne.mpr (fun hh => hk (hh ▸ hnull))
        have hfil : List.filter (fun it2 => pyGet it2 (Value.s kf) == k) (it :: its) =
            List.filter (fun it2 => pyGet it2 (Value.s kf) == k) its := by
          rw [List.filter_cons, if_neg (by simp [hb])]
        simp only [List.foldl_cons, if_pos hnull, hfil]
        exact createGroupingMap_fold_find kf k hk its acc
      · by_cases hkey : pyGet it (.s kf) = k
        · have hkeyb : (pyGet it (.s kf) == k) = true := by rw [beq_iff_eq]; exact hkey
          have hfil : List.filter (fun it2 => pyGet it2 (Value.s kf) == k) (it :: its) =
              it :: List.filter (fun it2 => pyGet it2 (Value.s kf) == k) its := by
            rw [List.filter_cons, if_pos (by simp [hkeyb])]
          have hins := dictFind?_groupInsert (pyGet it (Value.s kf)) it k acc
          rw [hkey, if_pos rfl] at hins
          simp only [List.foldl_cons, if_neg hnull]
          rw [hkey, hfil]
          refine ⟨fun hacc => ?_, fun l0 hacc => ?_⟩
          · rw [hacc] at hins
            have h2 := (createGroupingMap_fold_find kf k hk its
              (groupInsert acc k it)).2 [it] (by rw [hins])
            rw [h2, if_neg (by simp)]
            simp
          · rw [hacc] at hins
            have h2 := (createGroupingMap_fold_find kf k hk its
              (groupInsert acc k it)).2 (l0 ++ [it]) (by rw [hins]; rfl)
            rw [h2]
            simp
        · have hb : (pyGet it (.s kf) == k) = false := beq_eq_false_iff_ne.mpr hkey
          have hfil : List.filter (fun it2 => pyGet it2 (Value.s kf) == k) (it :: its) =
              List.filter (fun it2 => pyGet it2 (Value.s kf) == k) its := by
            rw [List.filter_cons, if_neg (by simp [hb])]
          have hins := dictFind?_groupInsert (pyGet it (Value.s kf)) it k acc
          rw [if_neg (fun hh => hkey hh.symm)] at hins
          simp only [List.foldl_cons, if_neg hnull]
          rw [hfil]
          refine ⟨fun hacc => ?_, fun l0 hacc => ?_⟩
          · exact (createGroupingMap_fold_find kf k hk its _).1 (hins.trans hacc)
          · exact (createGroupingMap_fold_find kf k hk its _).2 l0 (hins.trans hacc)

theorem mem_groupInsert_keys (k item : Value) :
    ∀ entries, ∀ p ∈ groupInsert entries k item,
      p.1 = k ∨ p.1 ∈ entries.map Prod.fst
  | [] => by
      intro p hp
      rcases List.mem_singleton.mp hp with rfl
      exact Or.inl rfl
  | (k0, v0) :: rest => by
      intro p hp
      rw [groupInsert] at hp
      by_cases h0 : k0 = k
      · rw [if_pos h0] at hp
        rcases List.mem_cons.mp hp with rfl | hmem
        · exact Or.inl h0
        · exact Or.inr (show p.1 ∈ k0 :: rest.map Prod.fst from
            List.mem_cons_of_mem k0 (List.mem_map_of_mem Prod.fst hmem))
      · rw [if_neg h0] at hp
        rcases List.mem_cons.mp hp with rfl | hmem
        · exact Or.inr (show (k0, v0).1 ∈ k0 :: rest.map Prod.fst from
            List.mem_cons_self k0 _)
        · rcases mem_groupInsert_keys k item rest p hmem with h | h
          · exact Or.inl h
          · exact Or.inr (show p.1 ∈ k0 :: rest.map Prod.fst from
              List.mem_cons_of_mem k0 h)

theorem createGroupingMap_fold_keys (kf : String) :
    ∀ (data : List Value) (acc : List (Value × Value)),
      (∀ p ∈ acc, p.1 ≠ Value.null) →
      ∀ p ∈ data.foldl (fun a it =>
          if pyGet it (.s kf) = .null then a
          else groupInsert a (pyGet it (.s kf)) it) acc,
        p.1 ≠ Value.null
  | [], acc, hacc => hacc
  | it :: its, acc, hacc => by
      simp only [List.foldl_cons]
      by_cases hnull : pyGet it (.s kf) = .null
      · rw [if_pos hnull]
        exact createGroupingMap_fold_keys kf its acc hacc
      · rw [if_neg hnull]
        refine createGroupingMap_fold_keys kf its _ (fun p hp => ?_)
        rcases mem_groupInsert_keys (pyGet it (.s kf)) it acc p hp with h | h
        · exact h ▸ hnull
        · obtain ⟨q, hq, hq1⟩ := List.mem_map.mp h
          exact hq1 ▸ hacc q hq

theorem dictFind?_some_mem_keys (entries : List (Value × Value)) (k v : Value)
    (h : dictFind? entries k = some v) : k ∈ entries.map Prod.fst := by
  simp only [dictFind?] at h
  rcases Option.map_eq_some'.mp h with ⟨pair, hfind, _⟩
  have hmem := List.mem_of_find?_eq_some hfind
  have hpred := List.find?_some hfind
  have hp1 : pair.1 = k := by rwa [beq_iff_eq] at hpred
  exact hp1 ▸ List.mem_map_of_mem Prod.fst hmem

/-! ## C7 — Standardization strategies -/

/-- **C7.** For every ordered record list: the `lookup` strategy keys at
most one record per key (duplicate-free key list), and the record found
for a key is the latest one bearing it (the first match scanning the input
in reverse); the `group_by` strategy maps each non-`None` key to the
source-ordered list of all records with that key, silently dropping
records whose key is missing (`None`); with no key declared (and a
non-`group_by` strategy, which would instead require one), standardization
returns the input sequence unchanged. -/
theorem claim7_standardization_contract (data : List Value) (kf : String) (k : Value) :
    ((createLookupMap data kf).map Prod.fst).Nodup ∧
    dictFind? (createLookupMap data kf) k =
      data.reverse.find? (fun it => pyGet it (.s kf) == k) ∧
    (k ≠ .null →
      dictFind? (createGroupingMap data kf) k =
        (if data.filter (fun it => pyGet it (.s kf) == k) = [] then none
         else some (.list (data.filter (fun it => pyGet it (.s kf) == k))))) ∧
    (∀ p ∈ createGroupingMap data kf, p.1 ≠ Value.null) ∧
    (∀ spec : SourceSpec, spec.strategy.getD "lookup" ≠ "group_by" →
      spec.key = none → standardizeSource data spec = .ok (.list data)) := by
  refine ⟨?_, ?_, fun hk => ?_, ?_, fun spec h1 h2 => ?_⟩
  · exact createLookupMap_fold_nodup kf data [] (by simp)
  · rw [show createLookupMap data kf =
      data.foldl (fun a it => dictInsert a (pyGet it (.s kf)) it) [] from rfl]
    rw [createLookupMap_fold_find]
    cases data.reverse.find? (fun it => pyGet it (.s kf) == k) <;> rfl
  · rw [show createGroupingMap data kf =
      data.foldl (fun a it =>
        if pyGet it (.s kf) = .null then a
        else groupInsert a (pyGet it (.s kf)) it) [] from rfl]
    exact (createGroupingMap_fold_find kf k hk data []).1 rfl
  · rw [show createGroupingMap data kf =
      data.foldl (fun a it =>
        if pyGet it (.s kf) = .null then a
        else groupInsert a (pyGet it (.s kf)) it) [] from rfl]
    exact createGroupingMap_fold_keys kf data [] (by simp)
  · rw [standardizeSource.eq_def]
    rw [if_neg h1, h2]

def demoRec1 : Value := .dict [(.s "k", .s "a"), (.s "v", .i 1)]

def demoRec2 : Value := .dict [(.s "k", .s "b")]

def demoRec3 : Value := .dict [(.s "k", .s "a"), (.s "v", .i 2)]

/-- Witness for C7: with two records keyed `"a"`, the lookup map keeps the
later one, the grouping map keeps both in source order, and the no-key
spec passes the data through unchanged. -/
theorem claim7_standardization_contract_witness :
    dictFind? (createLookupMap [demoRec1, demoRec2, demoRec3] "k") (.s "a") =
      some demoRec3 ∧
    dictFind? (createGroupingMap [demoRec1, demoRec2, demoRec3] "k") (.s "a") =
      some (.list [demoRec1, demoRec3]) ∧
    standardizeSource [demoRec1, demoRec2, demoRec3] ⟨"src", none, none⟩ =
      .ok (.list [demoRec1, demoRec2, demoRec3]) := by
  refine ⟨?_, ?_, ?_⟩
  · rw [(claim7_standardization_contract [demoRec1, demoRec2, demoRec3] "k"
      (.s "a")).2.1]
    decide
  · rw [(claim7_standardization_contract [demoRec1, demoRec2, demoRec3] "k"
      (.s "a")).2.2.1 (by decide)]
    decide
  · exact (claim7_standardization_contract [demoRec1, demoRec2, demoRec3] "k"
      (.s "a")).2.2.2.2 ⟨"src", none, none⟩ (by decide) rfl

/-! ## C10 — Lookup strategy keeps records missing the key (null key) -/

/-- **C10.** The lookup strategy does not drop records lacking the key
field: they are indexed under the `None` key (the last such record
winning, like any other key), so the keyed table can contain an entry
whose key is `None` — unlike `group_by`, which skips those records and
never has a `None` group. -/
theorem claim10_lookup_null_keys (data : List Value) (kf : String) :
    (dictFind? (createLookupMap data kf) .null =
      data.reverse.find? (fun it => pyGet it (.s kf) == Value.null)) ∧
    ((∃ it ∈ data, pyGet it (.s kf) = .null) →
      Value.null ∈ (createLookupMap data kf).map Prod.fst) ∧
    Value.null ∉ (createGroupingMap data kf).map Prod.fst := by
  refine ⟨?_, fun hex => ?_, fun hmem => ?_⟩
  · rw [show createLookupMap data kf =
      data.foldl (fun a it => dictInsert a (pyGet it (.s kf)) it) [] from rfl]
    rw [createLookupMap_fold_find]
    cases data.reverse.find? (fun it => pyGet it (.s kf) == Value.null) <;> rfl
  · obtain ⟨it, hit, hnull⟩ := hex
    have hfind : (data.reverse.find?
        (fun it2 => pyGet it2 (.s kf) == Value.null)).isSome := by
      rw [List.find?_isSome]
      exact ⟨it, by simp [hit], by simp [hnull]⟩
    obtain ⟨v, hv⟩ := Option.isSome_iff_exists.mp hfind
    have heq : dictFind? (createLookupMap data kf) .null = some v := by
      rw [show createLookupMap data kf =
        data.foldl (fun a it2 => dictInsert a (pyGet it2 (.s kf)) it2) [] from rfl]
      rw [createLookupMap_fold_find, hv]
    exact dictFind?_some_mem_keys _ _ _ heq
  · obtain ⟨q, hq, hq1⟩ := List.mem_map.mp hmem
    rw [show createGroupingMap data kf =
      data.foldl (fun a it =>
        if pyGet it (.s kf) = .null then a
        else groupInsert a (pyGet it (.s kf)) it) [] from rfl] at hq
    exact createGroupingMap_fold_keys kf data [] (by simp) q hq hq1

/-- Witness for C10: two records missing `"k"` are kept by the lookup map
under the `None` key (last one winning) and dropped by the grouping map. -/
theorem claim10_lookup_null_keys_witness :
    dictFind? (createLookupMap
      [.dict [(.s "x", .i 1)], .dict [(.s "k", .s "a")], .dict [(.s "x", .i 2)]] "k")
      .null = some (.dict [(.s "x", .i 2)]) ∧
    Value.null ∈ (createLookupMap
      [.dict [(.s "x", .i 1)], .dict [(.s "k", .s "a")], .dict [(.s "x", .i 2)]] "k").map
        Prod.fst ∧
    Value.null ∉ (createGroupingMap
      [.dict [(.s "x", .i 1)], .dict [(.s "k", .s "a")], .dict [(.s "x", .i 2)]] "k").map
        Prod.fst := by
  refine ⟨?_, ?_, ?_⟩
  · rw [(claim10_lookup_null_keys
      [.dict [(.s "x", .i 1)], .dict [(.s "k", .s "a")], .dict [(.s "x", .i 2)]] "k").1]
    decide
  · exact (claim10_lookup_null_keys
      [.dict [(.s "x", .i 1)], .dict [(.s "k", .s "a")], .dict [(.s "x", .i 2)]] "k").2.1
      ⟨.dict [(.s "x", .i 1)], by simp, by decide⟩
  · exact (claim10_lookup_null_keys
      [.dict [(.s "x", .i 1)], .dict [(.s "k", .s "a")], .dict [(.s "x", .i 2)]] "k").2.2

/-! ## C1 — List rule (corrected: a field extracted from a record entry is
passed through as-is and need not be a sequence) -/

/-- The `linked_list` assignment of the list branch (lines 162–166): a
declared `field` on a record entry is read with default `[]` and passed
through unchanged; otherwise the fetched entry itself is coerced to a
sequence (empty when it is not one). -/
def listExtract (ofield : Option String) (entry : Value) : Value :=
  match ofield with
  | some fieldName =>
      if entry.isDict then pyGetD entry (.s fieldName) (.list [])
      else if entry.isList then entry else .list []
  | none => if entry.isList then entry else .list []

/-- The sub-object loop is a map of the per-item build. -/
theorem buildSubObjects_eq_map (so : List (String × Rule)) (allData : AllData)
    (level : Nat) :
    ∀ items, buildSubObjects so items allData level =
      items.map (fun item => .dict (buildNode item so allData level))
  | [] => by rw [buildSubObjects_nil]; rfl
  | it :: more => by
      rw [buildSubObjects_cons, buildSubObjects_eq_map so allData level more]
      rfl

def c1Rule : Rule :=
  .mk (some (contextRule "k")) (some "src") (some "items") none false none none
    none (some "list") none none

/-- **C1, counterexample.** The claim concludes that a List rule without
`sub_object` always resolves to a sequence, but when the rule declares a
`field` and the fetched entry is a record, the field's value is passed
through as-is: with `{"key1": {"items": 5}}` the field resolves to the
integer `5`, which is not a sequence. -/
theorem claim1_list_counterexample :
    buildNode (.dict [(.s "k", .s "key1")]) [("xs", c1Rule)]
      [("src", .dict [(.s "key1", .dict [(.s "items", .i 5)])])] 0 =
      [(.s "xs", .i 5)] ∧
    (Value.i 5).isList = false := by
  constructor
  · rw [buildNode_cons_nocond _ _ _ _ _ _ (by rfl), buildNode_nil]
    rw [show c1Rule = Rule.mk (some (contextRule "k")) (some "src") (some "items")
      none false none none none (some "list") none none from rfl]
    rw [nodeValue_list, listRuleValue]
    decide
  · rfl

/-- The list branch of the dispatch, phrased via `listExtract`. -/
theorem nodeValue_list_extract (ctx : Value) (lk : Rule) (src : String)
    (ofield ofc : Option String) (fp : Bool) (otr : Option Transform)
    (ocond : Option (String × Rule × Bool)) (ofl oso : Option (List (String × Rule)))
    (allData : AllData) (level : Nat) :
    nodeValue ctx (.mk (some lk) (some src) ofield ofc fp otr ocond none
      (some "list") ofl oso) allData level =
      (match oso with
       | some so => Value.list (buildSubObjects so (pyIter (listExtract ofield
           (pyGet (allDataGetD allData src (.dict []))
             (getValue ctx lk allData)))) allData (level + 1))
       | none => listExtract ofield
           (pyGet (allDataGetD allData src (.dict []))
             (getValue ctx lk allData))) := by
  rw [nodeValue_list, listRuleValue.eq_def]
  cases ofield <;> cases oso <;> rfl

/-- **C1, amended.** For every context, table set, and List rule (no
condition, no coalesce): the engine resolves `link_key` against the
context and fetches the keyed entry from the named table. Without
`sub_object` the field's value is `listExtract`: if a `field` is declared
and the entry is a record, that field's value is used as-is (empty
sequence when the field is absent) and may be a non-sequence; otherwise
the fetched entry itself is used, coerced to a sequence (empty if it is
not one). With `sub_object`, one nested record is built per element of the
extracted sequence, the element replacing (not extending) the parent
context, collected in source order. -/
theorem claim1_list_rule_amended (ctx : Value) (key : String) (rule lk : Rule)
    (src : String) (rest : List (String × Rule)) (allData : AllData) (level : Nat)
    (entry : Value)
    (hcond : rule.condition = none) (hco : rule.coalesce = none)
    (hty : rule.type_tag = some "list")
    (hlk : rule.link_key = some lk) (hfrom : rule.from_src = some src)
    (hentry : entry = pyGet (allDataGetD allData src (.dict []))
      (getValue ctx lk allData)) :
    (rule.sub_object = none →
      buildNode ctx ((key, rule) :: rest) allData level =
        (.s key, listExtract rule.field entry) :: buildNode ctx rest allData level) ∧
    (∀ fieldName, rule.field = some fieldName → entry.isDict = true →
      listExtract rule.field entry = pyGetD entry (.s fieldName) (.list [])) ∧
    ((rule.field = none ∨ entry.isDict = false) →
      (listExtract rule.field entry).isList = true ∧
      listExtract rule.field entry = (if entry.isList then entry else .list [])) ∧
    (∀ so items, rule.sub_object = some so →
      listExtract rule.field entry = .list items →
      buildNode ctx ((key, rule) :: rest) allData level =
        (.s key, .list (items.map (fun item =>
          .dict (buildNode item so allData (level + 1))))) ::
          buildNode ctx rest allData level) := by
  obtain ⟨olk, ofrom, ofield, ofc, fp, otr, ocond, ocoal, otype, ofl, oso⟩ := rule
  simp only [Rule.link_key] at hlk
  simp only [Rule.from_src] at hfrom
  simp only [Rule.coalesce] at hco
  simp only [Rule.type_tag] at hty
  simp only [Rule.field, Rule.sub_object]
  subst hlk; subst hfrom; subst hco; subst hty
  have hnode := nodeValue_list_extract ctx lk src ofield ofc fp otr ocond
    ofl oso allData level
  rw [← hentry] at hnode
  refine ⟨fun hso => ?_, fun fieldName hf hdict => ?_, fun hcase => ?_,
    fun so items hso hlst => ?_⟩
  · subst hso
    rw [buildNode_cons_nocond _ _ _ _ _ _ hcond, hnode]
  · subst hf
    rw [listExtract, if_pos hdict]
  · have hcoerce : (if entry.isList then entry else Value.list []).isList = true := by
      by_cases hl : entry.isList
      · rw [if_pos hl]; exact hl
      · rw [if_neg hl]; rfl
    rcases hcase with hf | hdict
    · subst hf
      exact ⟨hcoerce, rfl⟩
    · cases ofield with
      | none => exact ⟨hcoerce, rfl⟩
      | some fieldName =>
          have hx : listExtract (some fieldName) entry =
              (if entry.isList then entry else Value.list []) := by
            rw [listExtract, if_neg (by rw [hdict]; exact fun h => nomatch h)]
          rw [hx]
          exact ⟨hcoerce, rfl⟩
  · subst hso
    dsimp only at hnode
    rw [buildNode_cons_nocond _ _ _ _ _ _ hcond, hnode, hlst]
    rw [show pyIter (.list items) = items from rfl]
    rw [buildSubObjects_eq_map]

/-- `nodeValue` on a Parent-passthrough field rule is the simple lookup. -/
theorem nodeValue_parent_field (ctx : Value) (c : String) (allData : AllData)
    (level : Nat) :
    nodeValue ctx (parentFieldRule c) allData level =
      resolveSimpleValue ctx (parentFieldRule c) allData := by
  rw [parentFieldRule]
  exact nodeValue_simple ctx none none (some c) none true none none none
    none none allData level (by simp) (by simp)

def spawnListRule : Rule :=
  .mk (some (directRule "zone" "zone_id")) (some "spawners") none none false
    none none none (some "list") none (some [("id", parentFieldRule "id")])

def spawnData : AllData :=
  [("spawners", .dict [(.s "z1",
      .list [.dict [(.s "id", .i 1)], .dict [(.s "id", .i 2)]])])]

/-- Witness for the amended C1 at the spec's list sub-object example: two
spawner records for zone `"z1"` yield a two-element ordered sequence of
`{id: ...}` records, each built with the spawner record as the context. -/
theorem claim1_list_rule_amended_witness :
    buildNode (.dict [(.s "zone", .dict [(.s "zone_id", .s "z1")])])
      [("spawns", spawnListRule)] spawnData 0 =
      [(.s "spawns", .list [.dict [(.s "id", .i 1)], .dict [(.s "id", .i 2)]])] := by
  have h := (claim1_list_rule_amended
    (.dict [(.s "zone", .dict [(.s "zone_id", .s "z1")])]) "spawns"
    spawnListRule (directRule "zone" "zone_id") "spawners" [] spawnData 0
    (.list [.dict [(.s "id", .i 1)], .dict [(.s "id", .i 2)]])
    rfl rfl rfl rfl rfl (by decide)).2.2.2
    [("id", parentFieldRule "id")]
    [.dict [(.s "id", .i 1)], .dict [(.s "id", .i 2)]] rfl (by decide)
  rw [h, buildNode_nil, List.map_cons, List.map_cons, List.map_nil]
  rw [buildNode_cons_nocond _ _ _ _ _ _ (by rfl), buildNode_nil,
    nodeValue_parent_field]
  rw [buildNode_cons_nocond _ _ _ _ _ _ (by rfl), buildNode_nil,
    nodeValue_parent_field]
  decide

/-! ## C6 — A table missing from the table set behaves like an empty one -/

theorem allDataGet?_cons_empty (d : AllData) (name : String) :
    ∀ n, allDataGet? ((name, Value.dict []) :: d) n =
      if n = name then some (.dict []) else allDataGet? d n := by
  intro n
  by_cases h : n = name
  · subst h
    simp [allDataGet?, List.find?]
  · have hb : (name == n) = false := beq_eq_false_iff_ne.mpr (fun hh => h hh.symm)
    simp [allDataGet?, List.find?, hb, h]

theorem allDataGetD_cons_empty (d : AllData) (name : String)
    (hmiss : allDataGet? d name = none) :
    ∀ n, allDataGetD ((name, Value.dict []) :: d) n (.dict []) =
      allDataGetD d n (.dict []) := by
  intro n
  rw [allDataGetD, allDataGetD, allDataGet?_cons_empty]
  by_cases h : n = name
  · subst h
    rw [if_pos rfl, hmiss]
    rfl
  · rw [if_neg h]

theorem getValue_cons_empty (d : AllData) (name : String)
    (hmiss : allDataGet? d name = none) :
    ∀ (ctx : Value) (rule : Rule),
      getValue ctx rule ((name, Value.dict []) :: d) = getValue ctx rule d
  | ctx, .mk (some lk) ofrom ofield ofc fp otr ocond ocoal otype ofl oso => by
      have ih := getValue_cons_empty d name hmiss ctx lk
      simp only [getValue]
      cases ofrom with
      | none => rfl
      | some src =>
          dsimp only
          rw [allDataGet?_cons_empty]
          by_cases hsrc : src = name
          · subst hsrc
            rw [if_pos rfl, hmiss, ih]
            dsimp only
            by_cases hnull : getValue ctx lk d = .null
            · rw [if_pos hnull]
            · rw [if_neg hnull]
              rw [show ∀ k, pyGet (.dict []) k = Value.null from fun _ => rfl]
              rw [if_pos rfl]
          · rw [if_neg hsrc, ih]
  | ctx, .mk none ofrom ofield (some fc) fp otr ocond ocoal otype ofl oso => by
      simp only [getValue]
  | ctx, .mk none ofrom ofield none fp otr ocond ocoal otype ofl oso => by
      simp only [getValue]

theorem applyTransform_cons_empty (d : AllData) (name : String)
    (hmiss : allDataGet? d name = none) (v : Value) (rule : Rule) :
    applyTransform v rule ((name, Value.dict []) :: d) = applyTransform v rule d := by
  rw [applyTransform.eq_def, applyTransform.eq_def]
  cases rule.transform with
  | none => rfl
  | some tr =>
      dsimp only
      by_cases hv : v = .null
      · rw [if_pos hv, if_pos hv]
      · rw [if_neg hv, if_neg hv]
        by_cases hl : tr.ttype = some "lookup"
        · rw [if_pos hl, if_pos hl]
          cases tr.in_source with
          | none => rfl
          | some srcName =>
              dsimp only
              by_cases hs : srcName = ""
              · subst hs
                rw [if_neg (fun hh => hh rfl), if_neg (fun hh => hh rfl)]
              · rw [if_pos hs, if_pos hs, allDataGetD_cons_empty d name hmiss]
        · rw [if_neg hl, if_neg hl]

theorem resolveSimpleValue_cons_empty (d : AllData) (name : String)
    (hmiss : allDataGet? d name = none) (ctx : Value) (rule : Rule) :
    resolveSimpleValue ctx rule ((name, Value.dict []) :: d) =
      resolveSimpleValue ctx rule d := by
  rw [resolveSimpleValue, resolveSimpleValue, getValue_cons_empty d name hmiss,
    applyTransform_cons_empty d name hmiss]

theorem checkCondition_cons_empty (d : AllData) (name : String)
    (hmiss : allDataGet? d name = none) (ctx : Value)
    (cond : String × Rule × Bool) :
    checkCondition ctx cond ((name, Value.dict []) :: d) =
      checkCondition ctx cond d := by
  rw [checkCondition, checkCondition, allDataGetD_cons_empty d name hmiss,
    getValue_cons_empty d name hmiss]

theorem condSkip_cons_empty (d : AllData) (name : String)
    (hmiss : allDataGet? d name = none) (ctx : Value)
    (ocond : Option (String × Rule × Bool)) :
    condSkip ctx ocond ((name, Value.dict []) :: d) = condSkip ctx ocond d := by
  cases ocond with
  | none => rfl
  | some cond =>
      rw [condSkip, condSkip, checkCondition_cons_empty d name hmiss]

theorem coalesceValue_cons_empty (d : AllData) (name : String)
    (hmiss : allDataGet? d name = none) (ctx : Value) :
    ∀ subs : List Rule,
      coalesceValue ctx subs ((name, Value.dict []) :: d) = coalesceValue ctx subs d
  | [] => rfl
  | r :: rest => by
      rw [coalesceValue, coalesceValue, resolveSimpleValue_cons_empty d name hmiss,
        coalesceValue_cons_empty d name hmiss ctx rest]

mutual

theorem buildNode_cons_empty (d : AllData) (name : String)
    (hmiss : allDataGet? d name = none) :
    ∀ (ctx : Value) (struc : List (String × Rule)) (level : Nat),
      buildNode ctx struc ((name, Value.dict []) :: d) level =
        buildNode ctx struc d level
  | ctx, [], level => by rw [buildNode_nil, buildNode_nil]
  | ctx, (key, rule) :: rest, level => by
      rw [buildNode_cons, buildNode_cons, condSkip_cons_empty d name hmiss]
      by_cases h : condSkip ctx rule.condition d
      · rw [if_pos h, if_pos h, buildNode_cons_empty d name hmiss ctx rest level]
      · rw [if_neg h, if_neg h, buildNode_cons_empty d name hmiss ctx rest level,
          nodeValue_cons_empty d name hmiss ctx rule level]
termination_by _ struc _ => (sizeOf struc, 0, 0)

theorem nodeValue_cons_empty (d : AllData) (name : String)
    (hmiss : allDataGet? d name = none) :
    ∀ (ctx : Value) (rule : Rule) (level : Nat),
      nodeValue ctx rule ((name, Value.dict []) :: d) level =
        nodeValue ctx rule d level
  | ctx, .mk olk ofrom ofield ofc fp otr ocond (some subs) otype ofl oso, level => by
      rw [nodeValue_coalesce, nodeValue_coalesce,
        coalesceValue_cons_empty d name hmiss]
  | ctx, .mk olk ofrom ofield ofc fp otr ocond none otype ofl oso, level => by
      by_cases hobj : otype = some "object"
      · subst hobj
        cases ofl with
        | none => rw [nodeValue_object_missing, nodeValue_object_missing]
        | some fl =>
            rw [nodeValue_object_fields, nodeValue_object_fields,
              buildNode_cons_empty d name hmiss ctx fl (level + 1)]
      · by_cases hlist : otype = some "list"
        · subst hlist
          rw [nodeValue_list, nodeValue_list, listRuleValue.eq_def,
            listRuleValue.eq_def]
          have hkey : (match olk with
              | some lk => getValue ctx lk ((name, Value.dict []) :: d)
              | none => Value.null) =
              (match olk with
              | some lk => getValue ctx lk d
              | none => Value.null) := by
            cases olk with
            | none => rfl
            | some lk => exact getValue_cons_empty d name hmiss ctx lk
          have htgt : (match ofrom with
              | some sourceName =>
                  allDataGetD ((name, Value.dict []) :: d) sourceName (.dict [])
              | none => Value.dict []) =
              (match ofrom with
              | some sourceName => allDataGetD d sourceName (.dict [])
              | none => Value.dict []) := by
            cases ofrom with
            | none => rfl
            | some sourceName => exact allDataGetD_cons_empty d name hmiss sourceName
          rw [hkey, htgt]
          cases oso with
          | none => rfl
          | some so =>
              dsimp only
              rw [buildSubObjects_cons_empty d name hmiss so _ (level + 1)]
        · rw [nodeValue_simple ctx olk ofrom ofield ofc fp otr ocond otype ofl oso
            _ level hobj hlist,
            nodeValue_simple ctx olk ofrom ofield ofc fp otr ocond otype ofl oso
            d level hobj hlist,
            resolveSimpleValue_cons_empty d name hmiss]
termination_by _ rule _ => (sizeOf rule, 1, 0)

theorem buildSubObjects_cons_empty (d : AllData) (name : String)
    (hmiss : allDataGet? d name = none) :
    ∀ (so : List (String × Rule)) (items : List Value) (level : Nat),
      buildSubObjects so items ((name, Value.dict []) :: d) level =
        buildSubObjects so items d level
  | so, [], level => by rw [buildSubObjects_nil, buildSubObjects_nil]
  | so, item :: more, level => by
      rw [buildSubObjects_cons, buildSubObjects_cons,
        buildNode_cons_empty d name hmiss item so level,
        buildSubObjects_cons_empty d name hmiss so more level]
termination_by so items _ => (sizeOf so, 2, sizeOf items)

end

/-- **C6.** For every context and rule, resolving against a table set from
which the named table is entirely absent yields the same value as
resolving against the same table set with that table present but empty:
for value lookups (hence Linked rules), transforms (hence `lookup`
transforms), condition checks, tree builds (hence List-rule fetches), and
whole driver runs. -/
theorem claim6_missing_table_as_empty (d : AllData) (name : String)
    (hmiss : allDataGet? d name = none) :
    (∀ (ctx : Value) (rule : Rule),
      getValue ctx rule ((name, Value.dict []) :: d) = getValue ctx rule d) ∧
    (∀ (v : Value) (rule : Rule),
      applyTransform v rule ((name, Value.dict []) :: d) =
        applyTransform v rule d) ∧
    (∀ (ctx : Value) (cond : String × Rule × Bool),
      checkCondition ctx cond ((name, Value.dict []) :: d) =
        checkCondition ctx cond d) ∧
    (∀ (ctx : Value) (struc : List (String × Rule)) (level : Nat),
      buildNode ctx struc ((name, Value.dict []) :: d) level =
        buildNode ctx struc d level) ∧
    (∀ (spec : Spec) (items : List Value),
      resolveData spec ((name, Value.dict []) :: d) items =
        resolveData spec d items) := by
  refine ⟨getValue_cons_empty d name hmiss,
    applyTransform_cons_empty d name hmiss,
    checkCondition_cons_empty d name hmiss,
    buildNode_cons_empty d name hmiss,
    fun spec items => ?_⟩
  rw [resolveData_eq_map, resolveData_eq_map]
  exact List.map_congr_left (fun item _ => by
    rw [buildNode_cons_empty d name hmiss])

def c6Rule : Rule := linkedRule (contextRule "k") "tbl" (some "f")

/-- Witness for C6: a Linked rule, a condition, and a single-field build
that all target a table named `"tbl"` behave identically whether `"tbl"`
is absent from the table set or present and empty. -/
theorem claim6_missing_table_as_empty_witness :
    getValue (.dict [(.s "k", .s "x")]) c6Rule [("tbl", .dict [])] =
      getValue (.dict [(.s "k", .s "x")]) c6Rule [] ∧
    checkCondition (.dict [(.s "k", .s "x")]) ("tbl", contextRule "k", true)
      [("tbl", .dict [])] =
      checkCondition (.dict [(.s "k", .s "x")]) ("tbl", contextRule "k", true) [] ∧
    buildNode (.dict [(.s "k", .s "x")]) [("out", c6Rule)] [("tbl", .dict [])] 0 =
      buildNode (.dict [(.s "k", .s "x")]) [("out", c6Rule)] [] 0 := by
  refine ⟨?_, ?_, ?_⟩
  · exact (claim6_missing_table_as_empty [] "tbl" rfl).1
      (.dict [(.s "k", .s "x")]) c6Rule
  · exact (claim6_missing_table_as_empty [] "tbl" rfl).2.2.1
      (.dict [(.s "k", .s "x")]) ("tbl", contextRule "k", true)
  · exact (claim6_missing_table_as_empty [] "tbl" rfl).2.2.2.1
      (.dict [(.s "k", .s "x")]) [("out", c6Rule)] 0
